import Mathlib

/-!
A verification development for the SkSL function-call inliner
(`src/sksl/SkSLInliner.cpp`).

The IR node types (expressions, statements, variables, function
declarations/definitions) are embedded as Lean inductive types, and the
inliner's helper routines are translated function by function:

* the returns analyzer (`count_all_returns`,
  `count_returns_at_end_of_control_flow`,
  `count_returns_in_breakable_constructs`, `has_early_return`,
  `contains_recursive_call`);
* scope repair (`ensure_scoped_blocks`);
* the naming service (`uniqueNameForInlineVar`);
* the IR cloner with return lowering (`inlineExpression`, `inlineStatement`);
* the argument-handling phase of the call rewriter (`makeInlineVar`,
  `inlineCallArg`, `inlineCallArgs`);
* the safety check (`isSafeToInline`);
* the candidate analyzer's traversal (`visitExpressionA`, `visitStatementA`),
  instrumented to return the tree path of every candidate call site.

Modelling conventions, stated once here:

* C++ pointer identity of `Variable` objects is modelled by a numeric `id`
  field; `FunctionDeclaration::matches` is modelled as equality of ids.
* Strings are `List Char` (so lexical facts such as the `__` digraph can be
  stated directly).
* Source offsets carried by every IR node are omitted: no claim mentions
  them, and they do not influence any control path of the inliner.
* A `SymbolTable` is modelled by the list of names that `add` has
  registered.  Per the spec (section 3), `takeOwnershipOfString` /
  `takeOwnershipOfSymbol` only transfer ownership and do not register a
  name for lookup, so they leave the model's table unchanged.
* The generic `ProgramVisitor` traversal (`SkSLAnalysis.h`, not part of the
  sources here) is modelled from the spec: it recurses into every child
  statement and expression of a node unless the overriding visitor says
  otherwise.
* `Analysis::StatementWritesToVariable` and `Analysis::NodeCount`
  (`SkSLAnalysis.cpp`, not part of the sources here) are kept abstract:
  the functions that consult them take their answer as an explicit
  argument, which is faithful because the inliner only branches on the
  returned value.
-/

namespace SkSL

/-- The two modifier bits of `Modifiers::fFlags` that the inliner consults:
`Modifiers::kOut_Flag` and `Modifiers::kInline_Flag`.  A default-constructed
`Modifiers()` has both bits clear. -/
structure Modifiers where
  isOut : Bool
  isInline : Bool

deriving instance DecidableEq for Modifiers

/-- `Modifiers()` — the default-constructed, empty modifier set. -/
def Modifiers.none : Modifiers := ⟨false, false⟩

/-- The resolved type of an expression or variable.  The inliner only ever
distinguishes `void`, the placeholder literal types `$floatLiteral` /
`$intLiteral` and their demotion targets `float` / `int`; every other type is
opaque data (`otherT`). -/
inductive SkType
  | voidT
  | boolT
  | intT
  | floatT
  | floatLiteralT
  | intLiteralT
  | arrayT (elem : Nat) (size : Nat)
  | otherT (name : Nat)

deriving instance DecidableEq for SkType

/-- `Variable::Storage`. -/
inductive Storage
  | kGlobal
  | kInterfaceBlock
  | kParameter
  | kLocal

deriving instance DecidableEq for Storage

/-- `VariableReference::RefKind`. -/
inductive RefKind
  | kRead
  | kWrite
  | kReadWrite
  | kPointer

deriving instance DecidableEq for RefKind

/-- The token kinds the inliner consults: `TK_EQ` (emitted for the result
assignment), the short-circuiting `TK_LOGICALAND` / `TK_LOGICALOR`, and an
opaque remainder. -/
inductive Token
  | TK_EQ
  | TK_LOGICALAND
  | TK_LOGICALOR
  | otherTok (n : Nat)

deriving instance DecidableEq for Token

/-- `Expression` variants, one constructor per `Expression::Kind` handled by
`Inliner::inlineExpression`.  Variables and functions are referenced by id. -/
inductive Expr
  | boolLit (value : Bool)
  | intLit (value : Int)
  | floatLit (bits : Nat)
  | nullLit
  | varRef (var : Nat) (refKind : RefKind)
  | fieldAccess (base : Expr) (fieldIndex : Nat)
  | indexE (base : Expr) (index : Expr)
  | swizzle (base : Expr) (components : List Nat)
  | constructorE (args : List Expr)
  | preE (op : Token) (operand : Expr)
  | postE (operand : Expr) (op : Token)
  | binary (left : Expr) (op : Token) (right : Expr)
  | ternary (test : Expr) (ifTrue : Expr) (ifFalse : Expr)
  | funcCall (function : Nat) (args : List Expr)
  | externalFunctionCall (args : List Expr)
  | externalValue (v : Nat)
  | functionRef (f : Nat)
  | typeRef (t : Nat)
  | setting (name : Nat)

/-- `Variable`: id stands for the C++ object identity; the remaining fields
are the constructor arguments of `Variable` that the inliner supplies. -/
structure Variable where
  id : Nat
  modifiers : Modifiers
  name : List Char
  type : SkType
  storage : Storage
  initialValue : Option Expr

/-- `Statement` variants, one constructor per `Statement::Kind` handled by
`Inliner::inlineStatement`.  A switch case is a pair of optional case value
and case statements.  A `Block` keeps its statement list and `fIsScope`
flag (its optional symbol table is ownership bookkeeping only). -/
inductive Stmt
  | block (statements : List Stmt) (isScope : Bool)
  | breakS
  | continueS
  | discardS
  | doS (statement : Stmt) (test : Expr)
  | exprS (expression : Expr)
  | forS (initializer : Option Stmt) (test : Option Expr) (next : Option Expr) (statement : Stmt)
  | ifS (isStatic : Bool) (test : Expr) (ifTrue : Stmt) (ifFalse : Option Stmt)
  | inlineMarker (funcDecl : Nat)
  | nop
  | returnS (expression : Option Expr)
  | switchS (isStatic : Bool) (value : Expr) (cases : List (Option Expr × List Stmt))
  | varDeclS (var : Variable) (sizes : List Expr) (value : Option Expr)
  | varDeclsS (baseType : SkType) (vars : List Stmt)
  | whileS (test : Expr) (statement : Stmt)

/-- `FunctionDefinition`: the declaration data the inliner reads
(`fDeclaration.fName`, `.fModifiers`, `.fReturnType`) together with the body
block. -/
structure FunctionDefinition where
  name : List Char
  modifiers : Modifiers
  returnType : SkType
  body : Stmt

/-- `FunctionDeclaration`: identity, the possibly-null link to the
definition, and the parser-maintained call count. -/
structure FunctionDeclaration where
  id : Nat
  definition : Option FunctionDefinition
  callCount : Nat

/-- `ShaderCapsClass` as consumed by the inliner: only `canUseDoLoops`. -/
structure Caps where
  canUseDoLoops : Bool

/-- `Program::Settings` as consumed by the inliner: the possibly-null caps
pointer and the configured inline threshold. -/
structure Settings where
  caps : Option Caps
  inlineThreshold : Int

/-- `INT_MAX` from `limits.h`. -/
def INT_MAX : Int := 2147483647

mutual

/-- `count_all_returns` (SkSLInliner.cpp lines 60-83), specialised to a
statement: a `kReturn` counts one and, like every other statement, has its
children visited.  Modelled from the spec: the `ProgramVisitor` base class
recurses into every child statement. -/
def count_all_returns_stmt : Stmt → Nat
  | .block ss _ => count_all_returns_list ss
  | .breakS => 0
  | .continueS => 0
  | .discardS => 0
  | .doS s _ => count_all_returns_stmt s
  | .exprS _ => 0
  | .forS i _ _ s => count_all_returns_opt i + count_all_returns_stmt s
  | .ifS _ _ t f => count_all_returns_stmt t + count_all_returns_opt f
  | .inlineMarker _ => 0
  | .nop => 0
  | .returnS _ => 1
  | .switchS _ _ cs => count_all_returns_cases cs
  | .varDeclS _ _ _ => 0
  | .varDeclsS _ vs => count_all_returns_list vs
  | .whileS _ s => count_all_returns_stmt s

/-- Helper of `count_all_returns_stmt` for an optional child statement. -/
def count_all_returns_opt : Option Stmt → Nat
  | Option.none => 0
  | some s => count_all_returns_stmt s

/-- Helper of `count_all_returns_stmt` for a statement list. -/
def count_all_returns_list : List Stmt → Nat
  | [] => 0
  | s :: ss => count_all_returns_stmt s + count_all_returns_list ss

/-- Helper of `count_all_returns_stmt` for switch cases. -/
def count_all_returns_cases : List (Option Expr × List Stmt) → Nat
  | [] => 0
  | (_, ss) :: cs => count_all_returns_list ss + count_all_returns_cases cs

end

/-- `count_all_returns` (SkSLInliner.cpp lines 60-83): total number of
return statements anywhere inside the function body. -/
def count_all_returns (funcDef : FunctionDefinition) : Nat :=
  count_all_returns_stmt funcDef.body

mutual

/-- `count_returns_at_end_of_control_flow` (SkSLInliner.cpp lines 85-121),
specialised to a statement: a block is entered through its last statement
only, switches and loops are not introspected, a return counts one, and
every other statement kind falls through to the generic child traversal
(which, for an if statement, visits both branches with this same
visitor). -/
def count_tail_stmt : Stmt → Nat
  | .block ss _ => count_tail_last ss
  | .switchS _ _ _ => 0
  | .whileS _ _ => 0
  | .doS _ _ => 0
  | .forS _ _ _ _ => 0
  | .returnS _ => 1
  | .ifS _ _ t f => count_tail_stmt t + count_tail_opt f
  | .varDeclsS _ vs => count_tail_list vs
  | _ => 0

/-- Helper of `count_tail_stmt` for an optional child statement. -/
def count_tail_opt : Option Stmt → Nat
  | Option.none => 0
  | some s => count_tail_stmt s

/-- Helper of `count_tail_stmt`: `blockStmts.back()` — only the last
statement of a block is inspected; an empty block contributes nothing. -/
def count_tail_last : List Stmt → Nat
  | [] => 0
  | [s] => count_tail_stmt s
  | _ :: ss => count_tail_last ss

/-- Helper of `count_tail_stmt` for the children of a `kVarDeclarations`
statement (each child is a `kVarDeclaration`, contributing nothing). -/
def count_tail_list : List Stmt → Nat
  | [] => 0
  | s :: ss => count_tail_stmt s + count_tail_list ss

end

/-- `count_returns_at_end_of_control_flow` (SkSLInliner.cpp lines
85-121). -/
def count_returns_at_end_of_control_flow (funcDef : FunctionDefinition) : Nat :=
  count_tail_stmt funcDef.body

mutual

/-- `count_returns_in_breakable_constructs` (SkSLInliner.cpp lines
123-157), specialised to a statement: switches and loops raise the
breakable-construct depth around their children, and a return counts one
exactly when the depth is positive. -/
def count_breakable_stmt (depth : Nat) : Stmt → Nat
  | .switchS _ _ cs => count_breakable_cases (depth + 1) cs
  | .whileS _ s => count_breakable_stmt (depth + 1) s
  | .doS s _ => count_breakable_stmt (depth + 1) s
  | .forS i _ _ s =>
      count_breakable_opt (depth + 1) i + count_breakable_stmt (depth + 1) s
  | .returnS _ => if depth > 0 then 1 else 0
  | .block ss _ => count_breakable_list depth ss
  | .ifS _ _ t f => count_breakable_stmt depth t + count_breakable_opt depth f
  | .varDeclsS _ vs => count_breakable_list depth vs
  | _ => 0

/-- Helper of `count_breakable_stmt` for an optional child statement. -/
def count_breakable_opt (depth : Nat) : Option Stmt → Nat
  | Option.none => 0
  | some s => count_breakable_stmt depth s

/-- Helper of `count_breakable_stmt` for a statement list. -/
def count_breakable_list (depth : Nat) : List Stmt → Nat
  | [] => 0
  | s :: ss => count_breakable_stmt depth s + count_breakable_list depth ss

/-- Helper of `count_breakable_stmt` for switch cases. -/
def count_breakable_cases (depth : Nat) : List (Option Expr × List Stmt) → Nat
  | [] => 0
  | (_, ss) :: cs => count_breakable_list depth ss + count_breakable_cases depth cs

end

/-- `count_returns_in_breakable_constructs` (SkSLInliner.cpp lines
123-157). -/
def count_returns_in_breakable_constructs (funcDef : FunctionDefinition) : Nat :=
  count_breakable_stmt 0 funcDef.body

/-- `has_early_return` (SkSLInliner.cpp lines 159-167): zero returns
short-circuit to false; otherwise the total return count is compared with
the count of returns at the end of control flow. -/
def has_early_return (funcDef : FunctionDefinition) : Bool :=
  let returnCount := count_all_returns funcDef
  if returnCount = 0 then
    false
  else
    decide (returnCount > count_returns_at_end_of_control_flow funcDef)

mutual

/-- `contains_recursive_call`'s statement visitor (SkSLInliner.cpp lines
185-190): an `InlineMarker` whose declaration matches the function makes
the answer true; every other statement defers to the generic child
traversal (modelled from the spec). -/
def recursive_call_stmt (fid : Nat) : Stmt → Bool
  | .block ss _ => recursive_call_list fid ss
  | .breakS => false
  | .continueS => false
  | .discardS => false
  | .doS s t => recursive_call_stmt fid s || recursive_call_expr fid t
  | .exprS e => recursive_call_expr fid e
  | .forS i t n s =>
      recursive_call_opt_stmt fid i || recursive_call_opt_expr fid t ||
      recursive_call_opt_expr fid n || recursive_call_stmt fid s
  | .ifS _ t a b =>
      recursive_call_expr fid t || recursive_call_stmt fid a ||
      recursive_call_opt_stmt fid b
  | .inlineMarker g => g == fid
  | .nop => false
  | .returnS e => recursive_call_opt_expr fid e
  | .switchS _ v cs => recursive_call_expr fid v || recursive_call_cases fid cs
  | .varDeclS _ sizes v =>
      recursive_call_expr_list fid sizes || recursive_call_opt_expr fid v
  | .varDeclsS _ vs => recursive_call_list fid vs
  | .whileS t s => recursive_call_expr fid t || recursive_call_stmt fid s

/-- `contains_recursive_call`'s expression visitor (SkSLInliner.cpp lines
178-183): a `FunctionCall` whose declaration matches the function makes the
answer true; otherwise children are traversed. -/
def recursive_call_expr (fid : Nat) : Expr → Bool
  | .boolLit _ => false
  | .intLit _ => false
  | .floatLit _ => false
  | .nullLit => false
  | .varRef _ _ => false
  | .fieldAccess b _ => recursive_call_expr fid b
  | .indexE b i => recursive_call_expr fid b || recursive_call_expr fid i
  | .swizzle b _ => recursive_call_expr fid b
  | .constructorE args => recursive_call_expr_list fid args
  | .preE _ e => recursive_call_expr fid e
  | .postE e _ => recursive_call_expr fid e
  | .binary l _ r => recursive_call_expr fid l || recursive_call_expr fid r
  | .ternary t a b =>
      recursive_call_expr fid t || recursive_call_expr fid a ||
      recursive_call_expr fid b
  | .funcCall g args => (g == fid) || recursive_call_expr_list fid args
  | .externalFunctionCall args => recursive_call_expr_list fid args
  | .externalValue _ => false
  | .functionRef _ => false
  | .typeRef _ => false
  | .setting _ => false

/-- Helper of the recursion detector for an optional child statement. -/
def recursive_call_opt_stmt (fid : Nat) : Option Stmt → Bool
  | Option.none => false
  | some s => recursive_call_stmt fid s

/-- Helper of the recursion detector for an optional child expression. -/
def recursive_call_opt_expr (fid : Nat) : Option Expr → Bool
  | Option.none => false
  | some e => recursive_call_expr fid e

/-- Helper of the recursion detector for a statement list. -/
def recursive_call_list (fid : Nat) : List Stmt → Bool
  | [] => false
  | s :: ss => recursive_call_stmt fid s || recursive_call_list fid ss

/-- Helper of the recursion detector for an expression list. -/
def recursive_call_expr_list (fid : Nat) : List Expr → Bool
  | [] => false
  | e :: es => recursive_call_expr fid e || recursive_call_expr_list fid es

/-- Helper of the recursion detector for switch cases. -/
def recursive_call_cases (fid : Nat) : List (Option Expr × List Stmt) → Bool
  | [] => false
  | (v, ss) :: cs =>
      recursive_call_opt_expr fid v || recursive_call_list fid ss ||
      recursive_call_cases fid cs

end

/-- `contains_recursive_call` (SkSLInliner.cpp lines 169-197): a
declaration with no definition is reported non-recursive; otherwise the
definition's body is searched for a matching call or inline marker. -/
def contains_recursive_call (funcDecl : FunctionDeclaration) : Bool :=
  match funcDecl.definition with
  | Option.none => false
  | some d => recursive_call_stmt funcDecl.id d.body

/-- The parent-statement test of `ensure_scoped_blocks` (SkSLInliner.cpp
line 200-201): the repair only applies below an if/for/do/while. -/
def is_control_flow_parent : Option Stmt → Bool
  | some (.ifS _ _ _ _) => true
  | some (.forS _ _ _ _) => true
  | some (.doS _ _) => true
  | some (.whileS _ _) => true
  | _ => false

/-- The descent loop of `ensure_scoped_blocks` (SkSLInliner.cpp lines
209-227), rendered as a predicate: it answers whether the loop reaches the
`fIsScope = true` assignment.  A block that is already a scope, or whose
single statement is not itself a block, terminates the walk with no
change; a block with zero or several statements demands a scope on the
outer block; a single nested block is descended into. -/
def needs_scope : Stmt → Bool
  | .block _ true => false
  | .block [.block ss' isScope'] false => needs_scope (.block ss' isScope')
  | .block [_] false => false
  | .block _ false => true
  | _ => false

/-- `Statement::is<Block>()`. -/
def Stmt.isBlock : Stmt → Bool
  | .block _ _ => true
  | _ => false

/-- Set `fIsScope` on a block. -/
def set_scope : Stmt → Stmt
  | .block ss _ => .block ss true
  | s => s

/-- `ensure_scoped_blocks` (SkSLInliner.cpp lines 199-229): when the
inlined body is placed under an if/for/do/while parent and the descent
loop demands a scope, the outermost block's `fIsScope` flag is set;
otherwise the body is returned unchanged. -/
def ensure_scoped_blocks (inlinedBody : Stmt) (parentStmt : Option Stmt) : Stmt :=
  if is_control_flow_parent parentStmt && needs_scope inlinedBody then
    set_scope inlinedBody
  else
    inlinedBody

/-- `fSettings->fCaps && fSettings->fCaps->canUseDoLoops()` (SkSLInliner.cpp
line 708): a null caps pointer counts as "cannot emit do loops". -/
def canEmitDoLoops (settings : Settings) : Bool :=
  match settings.caps with
  | Option.none => false
  | some c => c.canUseDoLoops

/-- Fuel-bounded decimal digit writer (least significant digit first),
modelling the `%d` conversion of `String::printf`. -/
def decDigits : Nat → Nat → List Nat
  | 0, _ => []
  | _ + 1, 0 => []
  | fuel + 1, n + 1 => ((n + 1) % 10) :: decDigits fuel ((n + 1) / 10)

/-- The decimal character rendering of a natural number, as `%d` prints
it. -/
def decChars (n : Nat) : List Char :=
  if n = 0 then ['0'] else ((decDigits n n).map Nat.digitChar).reverse

/-- Inverse of `Nat.digitChar` on decimal digits (used only to reason
about `decChars`). -/
def undigit (c : Char) : Nat := c.toNat - 48

/-- The splitter chosen by `Inliner::uniqueNameForInlineVar` (SkSLInliner.cpp
line 271): empty when the base name starts with an underscore, `_`
otherwise. -/
def splitterFor (baseName : List Char) : List Char :=
  if baseName.head? = some '_' then [] else ['_']

/-- One candidate name `_<n><splitter><base>` produced by
`String::printf("_%d%s%s", n, splitter, baseName)`. -/
def inlineVarName (n : Nat) (baseName : List Char) : List Char :=
  '_' :: (decChars n ++ (splitterFor baseName ++ baseName))

/-- The retry loop of `Inliner::uniqueNameForInlineVar` (SkSLInliner.cpp
lines 277-283): try `_<counter>...`, bump the counter, and stop at the
first name the symbol table does not know.  The fuel bound is harmless:
`uniqueNameForInlineVar` supplies enough fuel for the loop to find a free
name (the candidate names are pairwise distinct and the table is finite). -/
def uniqueNameLoop (fuel : Nat) (counter : Nat) (symbolTable : List (List Char))
    (baseName : List Char) : List Char × Nat :=
  match fuel with
  | 0 => (inlineVarName counter baseName, counter + 1)
  | fuel + 1 =>
    let uniqueName := inlineVarName counter baseName
    if uniqueName ∈ symbolTable then
      uniqueNameLoop fuel (counter + 1) symbolTable baseName
    else
      (uniqueName, counter + 1)

/-- `Inliner::uniqueNameForInlineVar` (SkSLInliner.cpp lines 266-286).
The inliner's `fInlineVarCounter` is passed in and the bumped counter is
returned alongside the generated name. -/
def uniqueNameForInlineVar (counter : Nat) (symbolTable : List (List Char))
    (baseName : List Char) : List Char × Nat :=
  uniqueNameLoop (symbolTable.length + 1) counter symbolTable baseName

/-- Whether a string contains the `__` digraph (two consecutive
underscores), the lexical pattern OpenGL forbids. -/
def hasDunder : List Char → Bool
  | c1 :: c2 :: rest => (c1 == '_' && c2 == '_') || hasDunder (c2 :: rest)
  | _ => false

/-- The variable-rewrite map `VariableRewriteMap` (old variable id to
replacement variable id); insertion is by consing, lookup finds the most
recent binding, matching the C++ map's overwrite semantics. -/
def VariableRewriteMap : Type := List (Nat × Nat)

/-- Map lookup, `varMap->find(&v.fVariable)`. -/
def lookupVar (varMap : VariableRewriteMap) (v : Nat) : Option Nat :=
  match varMap with
  | [] => Option.none
  | (k, w) :: rest => if k = v then some w else lookupVar rest v

/-- `copy_if_needed` (SkSLInliner.cpp lines 231-236): an array type is
copied into the receiving symbol table.  The copy is value-identical to
the original, so in this ownership-free model the type comes back
unchanged. -/
def copy_if_needed (src : SkType) : SkType := src

mutual

/-- `Inliner::inlineExpression` (SkSLInliner.cpp lines 288-382): a deep
clone with `varMap` applied at variable references (preserving the
reference's `fRefKind`); every other node is rebuilt around recursively
cloned children. -/
def inlineExpression (varMap : VariableRewriteMap) : Expr → Expr
  | .boolLit v => .boolLit v
  | .intLit v => .intLit v
  | .floatLit v => .floatLit v
  | .nullLit => .nullLit
  | .varRef v refKind =>
      match lookupVar varMap v with
      | some w => .varRef w refKind
      | Option.none => .varRef v refKind
  | .fieldAccess b i => .fieldAccess (inlineExpression varMap b) i
  | .indexE b i => .indexE (inlineExpression varMap b) (inlineExpression varMap i)
  | .swizzle b comps => .swizzle (inlineExpression varMap b) comps
  | .constructorE args => .constructorE (inlineExpressionList varMap args)
  | .preE op e => .preE op (inlineExpression varMap e)
  | .postE e op => .postE (inlineExpression varMap e) op
  | .binary l op r =>
      .binary (inlineExpression varMap l) op (inlineExpression varMap r)
  | .ternary t a b =>
      .ternary (inlineExpression varMap t) (inlineExpression varMap a)
        (inlineExpression varMap b)
  | .funcCall f args => .funcCall f (inlineExpressionList varMap args)
  | .externalFunctionCall args =>
      .externalFunctionCall (inlineExpressionList varMap args)
  | .externalValue v => .externalValue v
  | .functionRef f => .functionRef f
  | .typeRef t => .typeRef t
  | .setting n => .setting n

/-- The `argList` helper of `inlineExpression` (SkSLInliner.cpp lines
297-305). -/
def inlineExpressionList (varMap : VariableRewriteMap) : List Expr → List Expr
  | [] => []
  | e :: es => inlineExpression varMap e :: inlineExpressionList varMap es

end

/-- Helper of `inlineExpression` for an optional expression (`expr` lambda,
SkSLInliner.cpp lines 404-409: a null child is passed through). -/
def inlineExpressionOpt (varMap : VariableRewriteMap) : Option Expr → Option Expr
  | Option.none => Option.none
  | some e => some (inlineExpression varMap e)

/-- The mutable context threaded through `Inliner::inlineStatement`: the
variable-rewrite map, the inliner's `fInlineVarCounter`, the names registered
in the receiving symbol table, and a supply of fresh variable identities
(modelling allocation of new `Variable` objects). -/
structure CloneState where
  varMap : VariableRewriteMap
  counter : Nat
  symbolTable : List (List Char)
  nextId : Nat

mutual

/-- `Inliner::inlineStatement` (SkSLInliner.cpp lines 384-527): a deep
clone of a statement with variable references rewritten, variable
declarations renamed (and recorded in `varMap`), and `return` lowered to
an assignment to `returnVar` and/or a `break` according to
`haveEarlyReturns` (lines 445-472).  Children are processed in the
source's textual order, the for-loop initializer explicitly first (lines
431-433). -/
def inlineStatement (returnVar : Nat) (haveEarlyReturns : Bool)
    (st : CloneState) : Stmt → Stmt × CloneState
  | .block ss isScope =>
      let (ss', st') := inlineStatementList returnVar haveEarlyReturns st ss
      (.block ss' isScope, st')
  | .breakS => (.breakS, st)
  | .continueS => (.continueS, st)
  | .discardS => (.discardS, st)
  | .doS s t =>
      let (s', st') := inlineStatement returnVar haveEarlyReturns st s
      (.doS s' (inlineExpression st'.varMap t), st')
  | .exprS e => (.exprS (inlineExpression st.varMap e), st)
  | .forS i t n s =>
      let (i', st1) := inlineStatementOpt returnVar haveEarlyReturns st i
      let t' := inlineExpressionOpt st1.varMap t
      let n' := inlineExpressionOpt st1.varMap n
      let (s', st2) := inlineStatement returnVar haveEarlyReturns st1 s
      (.forS i' t' n' s', st2)
  | .ifS isStatic t a b =>
      let t' := inlineExpression st.varMap t
      let (a', st1) := inlineStatement returnVar haveEarlyReturns st a
      let (b', st2) := inlineStatementOpt returnVar haveEarlyReturns st1 b
      (.ifS isStatic t' a' b', st2)
  | .inlineMarker f => (.inlineMarker f, st)
  | .nop => (.nop, st)
  | .returnS expression =>
      match expression with
      | some e =>
        let assignment : Stmt :=
          .exprS (.binary (.varRef returnVar .kWrite) .TK_EQ
            (inlineExpression st.varMap e))
        if haveEarlyReturns then
          (.block [assignment, .breakS] true, st)
        else
          (assignment, st)
      | Option.none =>
        if haveEarlyReturns then
          (.breakS, st)
        else
          (.nop, st)
  | .switchS isStatic v cs =>
      let (cs', st1) := inlineSwitchCases returnVar haveEarlyReturns st cs
      (.switchS isStatic (inlineExpression st1.varMap v) cs', st1)
  | .varDeclS old sizes value =>
      let sizes' := inlineExpressionList st.varMap sizes
      let initialValue := inlineExpressionOpt st.varMap value
      let (uniqueName, counter') :=
        uniqueNameForInlineVar st.counter st.symbolTable old.name
      let typePtr := copy_if_needed old.type
      let clone : Variable :=
        ⟨st.nextId, old.modifiers, uniqueName, typePtr, old.storage, initialValue⟩
      let st' : CloneState :=
        ⟨(old.id, st.nextId) :: st.varMap, counter', st.symbolTable, st.nextId + 1⟩
      (.varDeclS clone sizes' initialValue, st')
  | .varDeclsS baseType vs =>
      let (vs', st') := inlineStatementList returnVar haveEarlyReturns st vs
      (.varDeclsS (copy_if_needed baseType) vs', st')
  | .whileS t s =>
      let t' := inlineExpression st.varMap t
      let (s', st') := inlineStatement returnVar haveEarlyReturns st s
      (.whileS t' s', st')

/-- The `stmts` helper of `inlineStatement` (SkSLInliner.cpp lines
397-403). -/
def inlineStatementList (returnVar : Nat) (haveEarlyReturns : Bool)
    (st : CloneState) : List Stmt → List Stmt × CloneState
  | [] => ([], st)
  | s :: ss =>
      let (s', st1) := inlineStatement returnVar haveEarlyReturns st s
      let (ss', st2) := inlineStatementList returnVar haveEarlyReturns st1 ss
      (s' :: ss', st2)

/-- The `stmt` helper of `inlineStatement` applied to an optional child
(SkSLInliner.cpp lines 390-396: a null child is passed through). -/
def inlineStatementOpt (returnVar : Nat) (haveEarlyReturns : Bool)
    (st : CloneState) : Option Stmt → Option Stmt × CloneState
  | Option.none => (Option.none, st)
  | some s =>
      let (s', st') := inlineStatement returnVar haveEarlyReturns st s
      (some s', st')

/-- The switch-case loop of `inlineStatement` (SkSLInliner.cpp lines
475-479): each case's value and statements are cloned in order. -/
def inlineSwitchCases (returnVar : Nat) (haveEarlyReturns : Bool)
    (st : CloneState) :
    List (Option Expr × List Stmt) → List (Option Expr × List Stmt) × CloneState
  | [] => ([], st)
  | (v, ss) :: cs =>
      let v' := inlineExpressionOpt st.varMap v
      let (ss', st1) := inlineStatementList returnVar haveEarlyReturns st ss
      let (cs', st2) := inlineSwitchCases returnVar haveEarlyReturns st1 cs
      ((v', ss') :: cs', st2)

end

/-- The `$floatLiteral` / `$intLiteral` demotion at the top of
`makeInlineVar` (SkSLInliner.cpp lines 567-576). -/
def demote_literal_type : SkType → SkType
  | .floatLiteralT => .floatT
  | .intLiteralT => .intT
  | t => t

/-- The mutable context of `Inliner::inlineCall`'s statement-building
phase: `fInlineVarCounter`, the names registered in the call-site symbol
table, the `inlinedBody` statement list built so far, and fresh variable
identities. -/
structure CallState where
  counter : Nat
  symbolTable : List (List Char)
  inlinedBody : List Stmt
  nextId : Nat

/-- The `makeInlineVar` lambda of `Inliner::inlineCall` (SkSLInliner.cpp
lines 565-607).  Returns the new variable, the updated state (with the
variable's declaration appended to `inlinedBody` and its name added to the
symbol table), and what is left in the caller's `initialValue` slot: for an
`out` parameter the declaration takes a clone and the slot keeps its
expression; otherwise the expression is moved out of the slot. -/
def makeInlineVar (st : CallState) (baseName : List Char) (type : SkType)
    (modifiers : Modifiers) (initialValue : Option Expr) :
    Variable × CallState × Option Expr :=
  let type := demote_literal_type type
  let (uniqueName, counter') :=
    uniqueNameForInlineVar st.counter st.symbolTable baseName
  let newVar : Variable :=
    ⟨st.nextId, Modifiers.none, uniqueName, type, .kLocal, initialValue⟩
  let symbolTable' := st.symbolTable ++ [uniqueName]
  let declaredValue := initialValue
  let remaining := if modifiers.isOut then initialValue else Option.none
  let declStmt : Stmt := .varDeclsS type [.varDeclS newVar [] declaredValue]
  (newVar,
   ⟨counter', symbolTable', st.inlinedBody ++ [declStmt], st.nextId + 1⟩,
   remaining)

/-- What the argument loop of `inlineCall` records in `varMap` for one
parameter: either the argument's own variable (pass-through) or a freshly
materialized temporary. -/
inductive ParamMapping
  | toArgVar (v : Nat)
  | toTemp (temp : Variable)

/-- Whether a mapping is the pass-through form. -/
def ParamMapping.isPassThrough : ParamMapping → Bool
  | .toArgVar _ => true
  | .toTemp _ => false

/-- `Expression::is<VariableReference>()`. -/
def Expr.isVariableReference : Expr → Bool
  | .varRef _ _ => true
  | _ => false

/-- One iteration of the argument loop of `Inliner::inlineCall`
(SkSLInliner.cpp lines 620-635).  `writesToParam` is the answer
`Analysis::StatementWritesToVariable(*function.fBody, *param)` would give.
A plain variable reference is passed through when the parameter is an
`out` parameter or is never written to; every other case materializes a
temporary via `makeInlineVar` with the parameter's name, the argument's
type, the parameter's modifiers and the argument as initial value.  The
third component is what remains in the `arguments[i]` slot afterwards. -/
def inlineCallArg (writesToParam : Bool) (param : Variable) (arg : Expr)
    (argType : SkType) (st : CallState) :
    ParamMapping × CallState × Option Expr :=
  match arg with
  | .varRef v refKind =>
    if param.modifiers.isOut || !writesToParam then
      (.toArgVar v, st, some (.varRef v refKind))
    else
      let (temp, st', remaining) :=
        makeInlineVar st param.name argType param.modifiers (some (.varRef v refKind))
      (.toTemp temp, st', remaining)
  | arg =>
    let (temp, st', remaining) :=
      makeInlineVar st param.name argType param.modifiers (some arg)
    (.toTemp temp, st', remaining)

/-- The whole argument loop of `Inliner::inlineCall` (SkSLInliner.cpp lines
619-635), building the `varMap` entries in order.  Each list element is a
parameter with the matching argument expression and that argument's type;
`writesTo` answers `Analysis::StatementWritesToVariable` per parameter
id. -/
def inlineCallArgs (writesTo : Nat → Bool) (st : CallState) :
    List (Variable × Expr × SkType) → List (Nat × ParamMapping) × CallState
  | [] => ([], st)
  | (param, arg, argType) :: rest =>
      let (mapping, st1, _) :=
        inlineCallArg (writesTo param.id) param arg argType st
      let (ms, st2) := inlineCallArgs writesTo st1 rest
      ((param.id, mapping) :: ms, st2)

/-- `Inliner::isSafeToInline` (SkSLInliner.cpp lines 693-725).  The node
count that `Analysis::NodeCount(functionDef)` would report is passed in as
`nodeCount` (that analysis lives outside the inliner's source).  The call's
only contribution is its function declaration, which is what is passed. -/
def isSafeToInline (settings : Settings) (function : FunctionDeclaration)
    (nodeCount : Int) (inlineThreshold : Int) : Bool :=
  match function.definition with
  | Option.none => false
  | some functionDef =>
    if inlineThreshold < INT_MAX &&
        (!functionDef.modifiers.isInline && decide (nodeCount ≥ inlineThreshold)) then
      false
    else if !canEmitDoLoops settings then
      !has_early_return functionDef
    else
      !decide (count_returns_in_breakable_constructs functionDef > 0)

/-- The short-circuitability test of the candidate analyzer
(SkSLInliner.cpp lines 951-952). -/
def isShortCircuit : Token → Bool
  | .TK_LOGICALAND => true
  | .TK_LOGICALOR => true
  | _ => false

/-- One step of a tree path through the IR, used to record where in the
program each inlining candidate sits. -/
inductive Dir
  | binL
  | binR
  | ternT
  | ternA
  | ternB
  | ctorArg (i : Nat)
  | callArg (i : Nat)
  | extArg (i : Nat)
  | idxBase
  | idxIdx
  | postOp
  | preOp
  | swzBase
  | fieldBase
  | blockAt (i : Nat)
  | doBody
  | exprE
  | forInit
  | forBody
  | ifTest
  | ifTrue
  | ifFalse
  | retE
  | swValue
  | swCase (i : Nat) (j : Nat)
  | vdValue
  | vdsAt (i : Nat)
  | whBody
  | peAt (i : Nat)
  | peBody

deriving instance DecidableEq for Dir

mutual

/-- `InlineCandidateAnalyzer::visitExpression` (SkSLInliner.cpp lines
919-1012), instrumented to return the path of every `FunctionCall` it
enqueues via `addInlineCandidate` (in visit order).  The right-hand side of
a short-circuiting binary is skipped (lines 951-955); only the test of a
ternary is visited (lines 1001-1007); a call's arguments are visited before
the call itself is enqueued (lines 972-978); literals, references, field
accesses and settings are not scanned (lines 925-937). -/
def visitExpressionA : Expr → List (List Dir)
  | .boolLit _ => []
  | .intLit _ => []
  | .floatLit _ => []
  | .nullLit => []
  | .varRef _ _ => []
  | .fieldAccess _ _ => []
  | .externalValue _ => []
  | .functionRef _ => []
  | .typeRef _ => []
  | .setting _ => []
  | .binary l op r =>
      (visitExpressionA l).map (fun p => Dir.binL :: p) ++
      (if isShortCircuit op then []
       else (visitExpressionA r).map (fun p => Dir.binR :: p))
  | .constructorE args => visitExprListA Dir.ctorArg 0 args
  | .externalFunctionCall args => visitExprListA Dir.extArg 0 args
  | .funcCall _ args => visitExprListA Dir.callArg 0 args ++ [[]]
  | .indexE b i =>
      (visitExpressionA b).map (fun p => Dir.idxBase :: p) ++
      (visitExpressionA i).map (fun p => Dir.idxIdx :: p)
  | .postE e _ => (visitExpressionA e).map (fun p => Dir.postOp :: p)
  | .preE _ e => (visitExpressionA e).map (fun p => Dir.preOp :: p)
  | .swizzle b _ => (visitExpressionA b).map (fun p => Dir.swzBase :: p)
  | .ternary t _ _ => (visitExpressionA t).map (fun p => Dir.ternT :: p)

/-- The argument loops of the candidate analyzer's expression visitor,
tagging each argument with its position. -/
def visitExprListA (tag : Nat → Dir) (i : Nat) : List Expr → List (List Dir)
  | [] => []
  | e :: es =>
      (visitExpressionA e).map (fun p => tag i :: p) ++
      visitExprListA tag (i + 1) es

end

mutual

/-- `InlineCandidateAnalyzer::visitStatement` (SkSLInliner.cpp lines
775-917), instrumented like `visitExpressionA`.  Loop test/next
expressions are not visited (do: lines 807-821, for: lines 827-854, while:
lines 895-909); a switch visits its value and its case statements but not
the case values (lines 867-881); a var declaration's sizes are skipped
(lines 882-887). -/
def visitStatementA : Stmt → List (List Dir)
  | .breakS => []
  | .continueS => []
  | .discardS => []
  | .inlineMarker _ => []
  | .nop => []
  | .block ss _ => visitStmtListA 0 ss
  | .doS s _ => (visitStatementA s).map (fun p => Dir.doBody :: p)
  | .exprS e => (visitExpressionA e).map (fun p => Dir.exprE :: p)
  | .forS i _ _ s =>
      visitStmtOptA Dir.forInit i ++
      (visitStatementA s).map (fun p => Dir.forBody :: p)
  | .ifS _ t a b =>
      (visitExpressionA t).map (fun p => Dir.ifTest :: p) ++
      (visitStatementA a).map (fun p => Dir.ifTrue :: p) ++
      visitStmtOptA Dir.ifFalse b
  | .returnS e => visitExprOptA Dir.retE e
  | .switchS _ v cs =>
      (visitExpressionA v).map (fun p => Dir.swValue :: p) ++
      visitCaseListA 0 cs
  | .varDeclS _ _ v => visitExprOptA Dir.vdValue v
  | .varDeclsS _ vs => visitVarDeclListA 0 vs
  | .whileS _ s => (visitStatementA s).map (fun p => Dir.whBody :: p)

/-- The block loop of the candidate analyzer's statement visitor. -/
def visitStmtListA (i : Nat) : List Stmt → List (List Dir)
  | [] => []
  | s :: ss =>
      (visitStatementA s).map (fun p => Dir.blockAt i :: p) ++
      visitStmtListA (i + 1) ss

/-- The var-declarations loop of the candidate analyzer's statement
visitor (visited with `isViableAsEnclosingStatement=false`, which does not
affect candidate collection). -/
def visitVarDeclListA (i : Nat) : List Stmt → List (List Dir)
  | [] => []
  | s :: ss =>
      (visitStatementA s).map (fun p => Dir.vdsAt i :: p) ++
      visitVarDeclListA (i + 1) ss

/-- The switch-case loops of the candidate analyzer's statement visitor:
only the case statements are visited. -/
def visitCaseListA (i : Nat) : List (Option Expr × List Stmt) → List (List Dir)
  | [] => []
  | (_, ss) :: cs =>
      visitCaseStmtsA i 0 ss ++ visitCaseListA (i + 1) cs

/-- The inner statement loop of one switch case. -/
def visitCaseStmtsA (i : Nat) (j : Nat) : List Stmt → List (List Dir)
  | [] => []
  | s :: ss =>
      (visitStatementA s).map (fun p => Dir.swCase i j :: p) ++
      visitCaseStmtsA i (j + 1) ss

/-- An optional child statement of the candidate analyzer. -/
def visitStmtOptA (tag : Dir) : Option Stmt → List (List Dir)
  | Option.none => []
  | some s => (visitStatementA s).map (fun p => tag :: p)

/-- An optional child expression of the candidate analyzer. -/
def visitExprOptA (tag : Dir) : Option Expr → List (List Dir)
  | Option.none => []
  | some e => (visitExpressionA e).map (fun p => tag :: p)

end

/-- A program element as seen by
`InlineCandidateAnalyzer::visitProgramElement` (SkSLInliner.cpp lines
762-773): only function definitions are entered. -/
inductive ProgramElement
  | functionDef (fd : FunctionDefinition)
  | otherElement

/-- `InlineCandidateAnalyzer::visit` over a whole program (SkSLInliner.cpp
lines 752-760): the candidate paths of every function body, in program
order. -/
def analyzerCandidates (i : Nat) : List ProgramElement → List (List Dir)
  | [] => []
  | .functionDef fd :: rest =>
      (visitStatementA fd.body).map (fun p => Dir.peAt i :: Dir.peBody :: p) ++
      analyzerCandidates (i + 1) rest
  | .otherElement :: rest => analyzerCandidates (i + 1) rest

mutual

/-- Whether a path from this expression passes through a position the
candidate analyzer must never enqueue a call from: the right operand of a
short-circuiting `&&` / `||`, or the true/false arm of a ternary. -/
def bannedE : Expr → List Dir → Bool
  | _, [] => false
  | e, d :: p =>
    match e, d with
    | .binary l _ _, .binL => bannedE l p
    | .binary _ op r, .binR => isShortCircuit op || bannedE r p
    | .ternary t _ _, .ternT => bannedE t p
    | .ternary _ _ _, .ternA => true
    | .ternary _ _ _, .ternB => true
    | .constructorE args, .ctorArg i => bannedEAt args i p
    | .funcCall _ args, .callArg i => bannedEAt args i p
    | .externalFunctionCall args, .extArg i => bannedEAt args i p
    | .indexE b _, .idxBase => bannedE b p
    | .indexE _ i, .idxIdx => bannedE i p
    | .postE e' _, .postOp => bannedE e' p
    | .preE _ e', .preOp => bannedE e' p
    | .swizzle b _, .swzBase => bannedE b p
    | .fieldAccess b _, .fieldBase => bannedE b p
    | _, _ => false

/-- `bannedE` at the i-th element of an expression list. -/
def bannedEAt : List Expr → Nat → List Dir → Bool
  | [], _, _ => false
  | e :: _, 0, p => bannedE e p
  | _ :: es, i + 1, p => bannedEAt es i p

end

mutual

/-- Whether a path from this statement reaches a banned expression
position (statement steps themselves are never banned). -/
def bannedS : Stmt → List Dir → Bool
  | _, [] => false
  | s0, d :: p =>
    match s0, d with
    | .block ss _, .blockAt i => bannedSAt ss i p
    | .doS s _, .doBody => bannedS s p
    | .exprS e, .exprE => bannedE e p
    | .forS (some i) _ _ _, .forInit => bannedS i p
    | .forS _ _ _ s, .forBody => bannedS s p
    | .ifS _ t _ _, .ifTest => bannedE t p
    | .ifS _ _ a _, .ifTrue => bannedS a p
    | .ifS _ _ _ (some b), .ifFalse => bannedS b p
    | .returnS (some e), .retE => bannedE e p
    | .switchS _ v _, .swValue => bannedE v p
    | .switchS _ _ cs, .swCase i j => bannedCaseAt cs i j p
    | .varDeclS _ _ (some v), .vdValue => bannedE v p
    | .varDeclsS _ vs, .vdsAt i => bannedSAt vs i p
    | .whileS _ s, .whBody => bannedS s p
    | _, _ => false

/-- `bannedS` at the i-th element of a statement list. -/
def bannedSAt : List Stmt → Nat → List Dir → Bool
  | [], _, _ => false
  | s :: _, 0, p => bannedS s p
  | _ :: ss, i + 1, p => bannedSAt ss i p

/-- `bannedS` at the j-th statement of the i-th switch case. -/
def bannedCaseAt : List (Option Expr × List Stmt) → Nat → Nat → List Dir → Bool
  | [], _, _, _ => false
  | (_, ss) :: _, 0, j, p => bannedSAt ss j p
  | _ :: cs, i + 1, j, p => bannedCaseAt cs i j p

end

/-- `bannedS` below the i-th program element. -/
def bannedProg : List ProgramElement → List Dir → Bool
  | .functionDef fd :: _, .peAt 0 :: .peBody :: p => bannedS fd.body p
  | _ :: pes, .peAt (i + 1) :: p => bannedProg pes (Dir.peAt i :: p)
  | _, _ => false

/-- Claim C8: `has_early_return` answers true exactly when the total
return count strictly exceeds the count of returns at the end of control
flow; the zero-return short-circuit agrees with that comparison, since
zero exceeds nothing. -/
theorem c8_has_early_return_iff (funcDef : FunctionDefinition) :
    has_early_return funcDef = true ↔
      count_all_returns funcDef > count_returns_at_end_of_control_flow funcDef := by
  unfold has_early_return
  by_cases h : count_all_returns funcDef = 0
  · simp [h]
  · simp [h]

/-- Claim C10: a function declaration whose definition link is null is
never reported as recursive by `contains_recursive_call`. -/
theorem c10_no_definition_not_recursive (funcDecl : FunctionDeclaration)
    (h : funcDecl.definition = Option.none) :
    contains_recursive_call funcDecl = false := by
  unfold contains_recursive_call
  rw [h]

/-- Witness for C10 at a concrete definition-less declaration. -/
theorem c10_witness :
    (⟨0, Option.none, 0⟩ : FunctionDeclaration).definition = Option.none ∧
      contains_recursive_call ⟨0, Option.none, 0⟩ = false :=
  ⟨rfl, c10_no_definition_not_recursive ⟨0, Option.none, 0⟩ rfl⟩

/-- Claim C9: with `inlineThreshold = INT_MAX` the size criterion of
`isSafeToInline` is skipped entirely — the verdict is the same for any
reported node count and any setting of the declaration's `inline` flag. -/
theorem c9_int_max_skips_size_check (settings : Settings) (id cc : Nat)
    (name : List Char) (m1 m2 : Modifiers) (rt : SkType) (body : Stmt)
    (nc1 nc2 : Int) :
    isSafeToInline settings ⟨id, some ⟨name, m1, rt, body⟩, cc⟩ nc1 INT_MAX =
      isSafeToInline settings ⟨id, some ⟨name, m2, rt, body⟩, cc⟩ nc2 INT_MAX := by
  unfold isSafeToInline
  have hmax : ¬ (INT_MAX < INT_MAX) := lt_irrefl _
  simp [hmax, has_early_return, count_all_returns,
    count_returns_at_end_of_control_flow, count_returns_in_breakable_constructs]

/-- Claim C3: `isSafeToInline` rejects a callee with no definition; with a
definition that passes the size criterion, the verdict is `!has_early_return`
when the capabilities cannot emit do-loops and
`count_returns_in_breakable_constructs = 0` when they can. -/
theorem c3_is_safe_to_inline_cases (settings : Settings)
    (function : FunctionDeclaration) (nodeCount inlineThreshold : Int) :
    (function.definition = Option.none →
      isSafeToInline settings function nodeCount inlineThreshold = false) ∧
    (∀ functionDef, function.definition = some functionDef →
      (inlineThreshold < INT_MAX →
        functionDef.modifiers.isInline = true ∨ nodeCount < inlineThreshold) →
      ((canEmitDoLoops settings = false →
          isSafeToInline settings function nodeCount inlineThreshold =
            !has_early_return functionDef) ∧
       (canEmitDoLoops settings = true →
          isSafeToInline settings function nodeCount inlineThreshold =
            decide (count_returns_in_breakable_constructs functionDef = 0)))) := by
  constructor
  · intro h
    unfold isSafeToInline
    rw [h]
  · intro functionDef hdef hsize
    unfold isSafeToInline
    rw [hdef]
    have hcond : (decide (inlineThreshold < INT_MAX) &&
        (!functionDef.modifiers.isInline && decide (nodeCount ≥ inlineThreshold))) = false := by
      by_cases hthr : inlineThreshold < INT_MAX
      · rcases hsize hthr with hinl | hlt
        · simp [hinl]
        · simp [not_le.mpr hlt]
      · simp [hthr]
    simp only [hcond, Bool.false_eq_true, if_false]
    constructor
    · intro hcaps
      simp [hcaps]
    · intro hcaps
      simp only [hcaps, Bool.not_true, Bool.false_eq_true, if_false]
      by_cases hz : count_returns_in_breakable_constructs functionDef = 0
      · simp [hz]
      · simp [hz, Nat.pos_of_ne_zero hz]

/-- Witness for C3 at a concrete no-caps configuration and a concrete
one-statement callee. -/
theorem c3_witness :
    ((⟨0, some ⟨[], ⟨false, false⟩, SkType.voidT, Stmt.nop⟩, 0⟩ :
        FunctionDeclaration).definition =
      some ⟨[], ⟨false, false⟩, SkType.voidT, Stmt.nop⟩) ∧
    isSafeToInline ⟨Option.none, 0⟩
        ⟨0, some ⟨[], ⟨false, false⟩, SkType.voidT, Stmt.nop⟩, 0⟩ 0 INT_MAX =
      !has_early_return ⟨[], ⟨false, false⟩, SkType.voidT, Stmt.nop⟩ :=
  ⟨rfl,
    ((c3_is_safe_to_inline_cases ⟨Option.none, 0⟩
        ⟨0, some ⟨[], ⟨false, false⟩, SkType.voidT, Stmt.nop⟩, 0⟩ 0 INT_MAX).2
      ⟨[], ⟨false, false⟩, SkType.voidT, Stmt.nop⟩ rfl
      (fun h => absurd h (by decide))).1 rfl⟩

/-- Counterexample to C5 as stated: under an if-statement parent, an
unscoped block whose single statement is a `break` (so: not exactly one
child block) is left entirely unchanged by `ensure_scoped_blocks` — its
is-scope flag is not set. -/
theorem c5_counterexample :
    ensure_scoped_blocks (Stmt.block [Stmt.breakS] false)
        (some (Stmt.ifS false (Expr.boolLit true) Stmt.nop Option.none)) =
      Stmt.block [Stmt.breakS] false ∧
    is_control_flow_parent
        (some (Stmt.ifS false (Expr.boolLit true) Stmt.nop Option.none)) = true ∧
    Stmt.isBlock Stmt.breakS = false := by
  refine ⟨?_, rfl, rfl⟩
  simp [ensure_scoped_blocks, needs_scope, is_control_flow_parent]

/-- Claim C5 (amended): for an inlined body under an if/for/while/do
parent, `ensure_scoped_blocks` sets the outermost is-scope flag exactly
when the descent demands it, and the descent works as follows: a block
that is already a scope changes nothing; a block with zero or several
statements demands the scope; a block whose single statement is not a
block changes nothing; a block whose single statement is a block descends
into it. -/
theorem c5_scope_repair (inlinedBody : Stmt) (parentStmt : Option Stmt)
    (hp : is_control_flow_parent parentStmt = true) :
    (ensure_scoped_blocks inlinedBody parentStmt =
       if needs_scope inlinedBody then set_scope inlinedBody else inlinedBody) ∧
    (∀ ss, needs_scope (.block ss true) = false) ∧
    (∀ ss, ss.length ≠ 1 → needs_scope (.block ss false) = true) ∧
    (∀ s, s.isBlock = false → needs_scope (.block [s] false) = false) ∧
    (∀ ss' isScope',
       needs_scope (.block [.block ss' isScope'] false) =
         needs_scope (.block ss' isScope')) := by
  refine ⟨?_, ?_, ?_, ?_, ?_⟩
  · unfold ensure_scoped_blocks
    rw [hp]
    by_cases hn : needs_scope inlinedBody <;> simp [hn]
  · intro ss
    simp [needs_scope]
  · intro ss hss
    match ss with
    | [] => simp [needs_scope]
    | [s] => simp at hss
    | s :: s' :: rest => simp [needs_scope]
  · intro s hs
    match s, hs with
    | .breakS, _ => simp [needs_scope]
    | .continueS, _ => simp [needs_scope]
    | .discardS, _ => simp [needs_scope]
    | .doS _ _, _ => simp [needs_scope]
    | .exprS _, _ => simp [needs_scope]
    | .forS _ _ _ _, _ => simp [needs_scope]
    | .ifS _ _ _ _, _ => simp [needs_scope]
    | .inlineMarker _, _ => simp [needs_scope]
    | .nop, _ => simp [needs_scope]
    | .returnS _, _ => simp [needs_scope]
    | .switchS _ _ _, _ => simp [needs_scope]
    | .varDeclS _ _ _, _ => simp [needs_scope]
    | .varDeclsS _ _, _ => simp [needs_scope]
    | .whileS _ _, _ => simp [needs_scope]
  · intro ss' isScope'
    conv_lhs => rw [needs_scope]

/-- Witness for C5 at a concrete while-statement parent and empty body
block. -/
theorem c5_witness :
    is_control_flow_parent (some (Stmt.whileS (Expr.boolLit true) Stmt.nop)) = true ∧
    ensure_scoped_blocks (Stmt.block [] false)
        (some (Stmt.whileS (Expr.boolLit true) Stmt.nop)) =
      (if needs_scope (Stmt.block [] false) then set_scope (Stmt.block [] false)
       else Stmt.block [] false) :=
  ⟨rfl,
    (c5_scope_repair (Stmt.block [] false)
      (some (Stmt.whileS (Expr.boolLit true) Stmt.nop)) rfl).1⟩

/-- Counterexample to C1 as stated: a plain variable-reference argument
bound to an `out` parameter that the callee body writes to is passed
through by the argument loop (no temporary, the state is untouched, and
`varMap` maps the parameter to the argument's variable), although the
claim demands a temporary whenever the parameter carries `out`. -/
theorem c1_counterexample :
    inlineCallArg true
        ⟨0, ⟨true, false⟩, ['r'], SkType.intT, Storage.kParameter, Option.none⟩
        (Expr.varRef 7 RefKind.kRead) SkType.intT ⟨0, [], [], 100⟩ =
      (ParamMapping.toArgVar 7, ⟨0, [], [], 100⟩,
        some (Expr.varRef 7 RefKind.kRead)) ∧
    (⟨0, ⟨true, false⟩, ['r'], SkType.intT, Storage.kParameter,
        Option.none⟩ : Variable).modifiers.isOut = true :=
  ⟨rfl, rfl⟩

/-- Claim C1 (amended): the argument loop of `inlineCall` passes an
argument through exactly when it is a plain variable reference and the
parameter carries `out` or the callee body does not write to it; a
pass-through maps the parameter to the argument's variable and creates
nothing, and every other case materializes a temporary via
`makeInlineVar`. -/
theorem c1_argument_pass_through (writesToParam : Bool) (param : Variable)
    (arg : Expr) (argType : SkType) (st : CallState) :
    ((inlineCallArg writesToParam param arg argType st).1.isPassThrough =
       (arg.isVariableReference && (param.modifiers.isOut || !writesToParam))) ∧
    (∀ v refKind, arg = .varRef v refKind →
       (param.modifiers.isOut || !writesToParam) = true →
       inlineCallArg writesToParam param arg argType st =
         (.toArgVar v, st, some (.varRef v refKind))) ∧
    ((arg.isVariableReference && (param.modifiers.isOut || !writesToParam)) = false →
       inlineCallArg writesToParam param arg argType st =
         (.toTemp (makeInlineVar st param.name argType param.modifiers (some arg)).1,
          (makeInlineVar st param.name argType param.modifiers (some arg)).2.1,
          (makeInlineVar st param.name argType param.modifiers (some arg)).2.2)) := by
  refine ⟨?_, ?_, ?_⟩
  · match arg with
    | .varRef v refKind =>
      by_cases h : (param.modifiers.isOut || !writesToParam) = true
      · simp [inlineCallArg, h, ParamMapping.isPassThrough, Expr.isVariableReference]
      · rw [Bool.not_eq_true] at h
        simp [inlineCallArg, h, ParamMapping.isPassThrough, Expr.isVariableReference]
    | .boolLit v => simp [inlineCallArg, ParamMapping.isPassThrough, Expr.isVariableReference]
    | .intLit v => simp [inlineCallArg, ParamMapping.isPassThrough, Expr.isVariableReference]
    | .floatLit v => simp [inlineCallArg, ParamMapping.isPassThrough, Expr.isVariableReference]
    | .nullLit => simp [inlineCallArg, ParamMapping.isPassThrough, Expr.isVariableReference]
    | .fieldAccess b i => simp [inlineCallArg, ParamMapping.isPassThrough, Expr.isVariableReference]
    | .indexE b i => simp [inlineCallArg, ParamMapping.isPassThrough, Expr.isVariableReference]
    | .swizzle b c => simp [inlineCallArg, ParamMapping.isPassThrough, Expr.isVariableReference]
    | .constructorE a => simp [inlineCallArg, ParamMapping.isPassThrough, Expr.isVariableReference]
    | .preE o e => simp [inlineCallArg, ParamMapping.isPassThrough, Expr.isVariableReference]
    | .postE e o => simp [inlineCallArg, ParamMapping.isPassThrough, Expr.isVariableReference]
    | .binary l o r => simp [inlineCallArg, ParamMapping.isPassThrough, Expr.isVariableReference]
    | .ternary t a b => simp [inlineCallArg, ParamMapping.isPassThrough, Expr.isVariableReference]
    | .funcCall f a => simp [inlineCallArg, ParamMapping.isPassThrough, Expr.isVariableReference]
    | .externalFunctionCall a => simp [inlineCallArg, ParamMapping.isPassThrough, Expr.isVariableReference]
    | .externalValue v => simp [inlineCallArg, ParamMapping.isPassThrough, Expr.isVariableReference]
    | .functionRef f => simp [inlineCallArg, ParamMapping.isPassThrough, Expr.isVariableReference]
    | .typeRef t => simp [inlineCallArg, ParamMapping.isPassThrough, Expr.isVariableReference]
    | .setting n => simp [inlineCallArg, ParamMapping.isPassThrough, Expr.isVariableReference]
  · intro v refKind harg hcond
    subst harg
    simp [inlineCallArg, hcond]
  · intro h
    match arg with
    | .varRef v refKind =>
      rw [Expr.isVariableReference] at h
      simp only [Bool.true_and] at h
      simp [inlineCallArg, h]
    | .boolLit v => simp [inlineCallArg]
    | .intLit v => simp [inlineCallArg]
    | .floatLit v => simp [inlineCallArg]
    | .nullLit => simp [inlineCallArg]
    | .fieldAccess b i => simp [inlineCallArg]
    | .indexE b i => simp [inlineCallArg]
    | .swizzle b c => simp [inlineCallArg]
    | .constructorE a => simp [inlineCallArg]
    | .preE o e => simp [inlineCallArg]
    | .postE e o => simp [inlineCallArg]
    | .binary l o r => simp [inlineCallArg]
    | .ternary t a b => simp [inlineCallArg]
    | .funcCall f a => simp [inlineCallArg]
    | .externalFunctionCall a => simp [inlineCallArg]
    | .externalValue v => simp [inlineCallArg]
    | .functionRef f => simp [inlineCallArg]
    | .typeRef t => simp [inlineCallArg]
    | .setting n => simp [inlineCallArg]

/-- Witness for C1 at a concrete pass-through: a variable-reference
argument for a parameter that is neither `out` nor written to. -/
theorem c1_witness :
    inlineCallArg false
        ⟨1, ⟨false, false⟩, ['a'], SkType.intT, Storage.kParameter, Option.none⟩
        (Expr.varRef 3 RefKind.kRead) SkType.intT ⟨0, [], [], 100⟩ =
      (ParamMapping.toArgVar 3, ⟨0, [], [], 100⟩,
        some (Expr.varRef 3 RefKind.kRead)) :=
  (c1_argument_pass_through false
      ⟨1, ⟨false, false⟩, ['a'], SkType.intT, Storage.kParameter, Option.none⟩
      (Expr.varRef 3 RefKind.kRead) SkType.intT ⟨0, [], [], 100⟩).2.1
    3 RefKind.kRead rfl rfl

/-- Counterexample to C2 as stated: a temporary materialized for an `out`
parameter carries the default-constructed (empty) modifier set, not the
parameter's modifiers. -/
theorem c2_counterexample :
    (inlineCallArg true
        ⟨0, ⟨true, false⟩, ['r'], SkType.intT, Storage.kParameter, Option.none⟩
        (Expr.intLit 3) SkType.intT ⟨0, [], [], 100⟩).1 =
      ParamMapping.toTemp ⟨100, Modifiers.none, ['_', '0', '_', 'r'],
        SkType.intT, Storage.kLocal, some (Expr.intLit 3)⟩ ∧
    Modifiers.none ≠
      (⟨0, ⟨true, false⟩, ['r'], SkType.intT, Storage.kParameter,
        Option.none⟩ : Variable).modifiers :=
  ⟨rfl, by decide⟩

/-- Claim C2 (amended): a temporary materialized by `makeInlineVar` gets
the argument's type (assuming the type-invariant that no placeholder
literal type reaches a declaration) and the default-constructed empty
modifiers; its declaration is appended to the inlined body initialized
with the argument expression, and for an `out` parameter the original
argument slot keeps its expression (the declaration takes a clone). -/
theorem c2_materialized_temp (st : CallState) (baseName : List Char)
    (argType : SkType) (modifiers : Modifiers) (arg : Expr)
    (h1 : argType ≠ .floatLiteralT) (h2 : argType ≠ .intLiteralT) :
    ((makeInlineVar st baseName argType modifiers (some arg)).1.type = argType) ∧
    ((makeInlineVar st baseName argType modifiers (some arg)).1.modifiers =
       Modifiers.none) ∧
    ((makeInlineVar st baseName argType modifiers (some arg)).2.1.inlinedBody =
       st.inlinedBody ++
         [.varDeclsS argType
            [.varDeclS (makeInlineVar st baseName argType modifiers (some arg)).1
               [] (some arg)]]) ∧
    (modifiers.isOut = true →
       (makeInlineVar st baseName argType modifiers (some arg)).2.2 = some arg) := by
  have hdem : demote_literal_type argType = argType := by
    match argType, h1, h2 with
    | .voidT, _, _ => rfl
    | .boolT, _, _ => rfl
    | .intT, _, _ => rfl
    | .floatT, _, _ => rfl
    | .floatLiteralT, h1, _ => exact absurd rfl h1
    | .intLiteralT, _, h2 => exact absurd rfl h2
    | .arrayT e s, _, _ => rfl
    | .otherT n, _, _ => rfl
  refine ⟨?_, ?_, ?_, ?_⟩
  · simp [makeInlineVar, hdem]
  · simp [makeInlineVar]
  · simp [makeInlineVar, hdem]
  · intro hout
    simp [makeInlineVar, hout]

/-- Witness for C2 at a concrete materialization for an `out` parameter. -/
theorem c2_witness :
    (makeInlineVar ⟨0, [], [], 100⟩ ['r'] SkType.intT ⟨true, false⟩
        (some (Expr.intLit 3))).1.type = SkType.intT ∧
    (makeInlineVar ⟨0, [], [], 100⟩ ['r'] SkType.intT ⟨true, false⟩
        (some (Expr.intLit 3))).1.modifiers = Modifiers.none ∧
    (makeInlineVar ⟨0, [], [], 100⟩ ['r'] SkType.intT ⟨true, false⟩
        (some (Expr.intLit 3))).2.2 = some (Expr.intLit 3) := by
  have h := c2_materialized_temp ⟨0, [], [], 100⟩ ['r'] SkType.intT ⟨true, false⟩
    (Expr.intLit 3) (by decide) (by decide)
  exact ⟨h.1, h.2.1, h.2.2.2 rfl⟩

/-- Claim C4: return lowering in the cloner.  A `return E` becomes the
assignment `resultVar = clone(E)` — wrapped with a `break` in a scoped
block when `haveEarlyReturns` — and a bare `return` becomes a `break` when
`haveEarlyReturns` and a no-op otherwise.  The clone state is untouched in
all four cases. -/
theorem c4_return_lowering (st : CloneState) (returnVar : Nat) (e : Expr) :
    inlineStatement returnVar true st (.returnS (some e)) =
      (.block [.exprS (.binary (.varRef returnVar .kWrite) .TK_EQ
          (inlineExpression st.varMap e)), .breakS] true, st) ∧
    inlineStatement returnVar false st (.returnS (some e)) =
      (.exprS (.binary (.varRef returnVar .kWrite) .TK_EQ
          (inlineExpression st.varMap e)), st) ∧
    inlineStatement returnVar true st (.returnS Option.none) = (.breakS, st) ∧
    inlineStatement returnVar false st (.returnS Option.none) = (.nop, st) := by
  refine ⟨?_, ?_, ?_, ?_⟩ <;> simp [inlineStatement]

/-- The fuel-bounded digit writer reconstructs its input. -/
theorem ofDigits_decDigits :
    ∀ (fuel n : Nat), n ≤ fuel → Nat.ofDigits 10 (decDigits fuel n) = n := by
  intro fuel
  induction fuel with
  | zero =>
    intro n h
    interval_cases n
    simp [decDigits]
  | succ fuel ih =>
    intro n h
    match n with
    | 0 => simp [decDigits]
    | m + 1 =>
      rw [decDigits, Nat.ofDigits_cons]
      have hdiv : (m + 1) / 10 < m + 1 := Nat.div_lt_self (Nat.succ_pos m) (by omega)
      rw [ih ((m + 1) / 10) (by omega)]
      omega

/-- Every digit emitted by `decDigits` is below ten. -/
theorem decDigits_lt_ten :
    ∀ (fuel n d : Nat), d ∈ decDigits fuel n → d < 10 := by
  intro fuel
  induction fuel with
  | zero =>
    intro n d h
    simp [decDigits] at h
  | succ fuel ih =>
    intro n d h
    match n with
    | 0 => simp [decDigits] at h
    | m + 1 =>
      rw [decDigits] at h
      rcases List.mem_cons.mp h with h | h
      · subst h
        exact Nat.mod_lt _ (by omega)
      · exact ih _ _ h

/-- `undigit` inverts `Nat.digitChar` below ten. -/
theorem undigit_digitChar : ∀ d, d < 10 → undigit (Nat.digitChar d) = d := by
  decide

/-- Below ten, `Nat.digitChar` never yields an underscore. -/
theorem digitChar_ne_underscore : ∀ d, d < 10 → Nat.digitChar d ≠ '_' := by
  decide

/-- Mapping `undigit` over digit characters of decimal digits is the
identity. -/
theorem map_undigit_digitChar :
    ∀ (l : List Nat), (∀ d ∈ l, d < 10) →
      l.map (fun d => undigit (Nat.digitChar d)) = l := by
  intro l
  induction l with
  | nil => intro; rfl
  | cons d t ih =>
    intro h
    simp only [List.map_cons]
    rw [undigit_digitChar d (h d (by simp)), ih (fun x hx => h x (by simp [hx]))]

/-- The decimal rendering can be decoded back to the number. -/
theorem decode_decChars (n : Nat) :
    Nat.ofDigits 10 ((decChars n).reverse.map undigit) = n := by
  match n with
  | 0 => simp [decChars, undigit, Nat.ofDigits]
  | m + 1 =>
    unfold decChars
    simp only [Nat.succ_ne_zero, if_false, List.reverse_reverse, List.map_map]
    have hmap : (decDigits (m + 1) (m + 1)).map (undigit ∘ Nat.digitChar) =
        decDigits (m + 1) (m + 1) := by
      have := map_undigit_digitChar (decDigits (m + 1) (m + 1))
        (fun d hd => decDigits_lt_ten _ _ d hd)
      simpa [Function.comp] using this
    rw [hmap]
    exact ofDigits_decDigits _ _ le_rfl

/-- The decimal rendering is injective. -/
theorem decChars_inj {m n : Nat} (h : decChars m = decChars n) : m = n := by
  have hm := decode_decChars m
  have hn := decode_decChars n
  rw [h] at hm
  omega

/-- The decimal rendering is never empty. -/
theorem decChars_ne_nil (n : Nat) : decChars n ≠ [] := by
  match n with
  | 0 => simp [decChars]
  | m + 1 => simp [decChars, decDigits]

/-- Every character of the decimal rendering is a digit character, hence
not an underscore. -/
theorem decChars_ne_underscore (n : Nat) : ∀ c ∈ decChars n, c ≠ '_' := by
  intro c hc
  unfold decChars at hc
  by_cases h : n = 0
  · simp [h] at hc
    subst hc
    decide
  · simp only [h, if_false, List.mem_reverse, List.mem_map] at hc
    obtain ⟨d, hd, rfl⟩ := hc
    exact digitChar_ne_underscore d (decDigits_lt_ten n n d hd)

/-- `inlineVarName` is injective in its counter for a fixed base. -/
theorem inlineVarName_inj {base : List Char} {m n : Nat}
    (h : inlineVarName m base = inlineVarName n base) : m = n := by
  unfold inlineVarName at h
  injection h with _ h
  exact decChars_inj (List.append_left_injective _ h)

/-- Among the first `|table| + 1` candidate names, one is free: the
candidates are pairwise distinct and the table is finite. -/
theorem exists_fresh_name (counter : Nat) (symbolTable : List (List Char))
    (baseName : List Char) :
    ∃ k, k ≤ symbolTable.length ∧
      inlineVarName (counter + k) baseName ∉ symbolTable := by
  by_contra hall
  push_neg at hall
  have hnodup : ((List.range (symbolTable.length + 1)).map
      (fun k => inlineVarName (counter + k) baseName)).Nodup := by
    refine List.Nodup.map ?_ (List.nodup_range _)
    intro a b hab
    have := inlineVarName_inj hab
    omega
  have hsub : ((List.range (symbolTable.length + 1)).map
      (fun k => inlineVarName (counter + k) baseName)).toFinset ⊆
        symbolTable.toFinset := by
    intro x hx
    rw [List.mem_toFinset, List.mem_map] at hx
    obtain ⟨k, hk, rfl⟩ := hx
    rw [List.mem_range] at hk
    rw [List.mem_toFinset]
    exact hall k (by omega)
  have h1 := List.toFinset_card_of_nodup hnodup
  have h2 := Finset.card_le_card hsub
  have h3 := List.toFinset_card_le (l := symbolTable)
  simp only [List.length_map, List.length_range] at h1
  omega

/-- The retry loop returns the first free candidate name: given that some
candidate within the fuel bound is free, the result has the printed form
`_<n><sep><base>` for some `n` at least the starting counter, the bumped
counter is returned, and the name is absent from the table. -/
theorem uniqueNameLoop_spec (baseName : List Char)
    (symbolTable : List (List Char)) :
    ∀ (fuel counter : Nat),
      (∃ k, k < fuel ∧ inlineVarName (counter + k) baseName ∉ symbolTable) →
      ∃ n, counter ≤ n ∧
        uniqueNameLoop fuel counter symbolTable baseName =
          (inlineVarName n baseName, n + 1) ∧
        inlineVarName n baseName ∉ symbolTable := by
  intro fuel
  induction fuel with
  | zero =>
    intro counter h
    obtain ⟨k, hk, _⟩ := h
    omega
  | succ fuel ih =>
    intro counter h
    obtain ⟨k, hk, hfree⟩ := h
    rw [uniqueNameLoop]
    by_cases hmem : inlineVarName counter baseName ∈ symbolTable
    · have hk0 : k ≠ 0 := by
        rintro rfl
        exact hfree (by simpa using hmem)
      obtain ⟨n, hn1, hn2, hn3⟩ := ih (counter + 1)
        ⟨k - 1, by omega, by
          have hck : counter + 1 + (k - 1) = counter + k := by omega
          rw [hck]
          exact hfree⟩
      refine ⟨n, by omega, ?_, hn3⟩
      simpa [hmem] using hn2
    · refine ⟨counter, le_rfl, ?_, hmem⟩
      simp [hmem]

/-- `hasDunder` is false on strings with no underscore at all. -/
theorem hasDunder_of_no_underscore :
    ∀ (l : List Char), (∀ c ∈ l, c ≠ '_') → hasDunder l = false := by
  intro l
  induction l with
  | nil => intro; rfl
  | cons a t ih =>
    intro h
    match t with
    | [] => rfl
    | b :: t' =>
      rw [hasDunder]
      have ha : a ≠ '_' := h a (by simp)
      have hrest : hasDunder (b :: t') = false :=
        ih (fun c hc => h c (by simp [hc]))
      simp [hrest, ha]

/-- `hasDunder` over an append is false when both halves are free of the
digraph and the junction does not form one. -/
theorem hasDunder_append :
    ∀ (l1 l2 : List Char), hasDunder l1 = false → hasDunder l2 = false →
      (∀ c d, l1.getLast? = some c → l2.head? = some d →
        c = '_' → d = '_' → False) →
      hasDunder (l1 ++ l2) = false := by
  intro l1
  induction l1 with
  | nil =>
    intro l2 _ h2 _
    simpa using h2
  | cons a t ih =>
    intro l2 h1 h2 hj
    match t with
    | [] =>
      match l2, h2 with
      | [], _ => rfl
      | d :: l2', h2 =>
        rw [List.singleton_append, hasDunder]
        have hnj : ¬ (a = '_' ∧ d = '_') := by
          rintro ⟨rfl, rfl⟩
          exact hj _ _ rfl rfl rfl rfl
        have : (a == '_' && d == '_') = false := by
          by_cases ha : a = '_' <;> by_cases hd : d = '_' <;>
            simp [ha, hd] at hnj ⊢
        rw [this, h2]
        rfl
    | b :: t' =>
      rw [List.cons_append, List.cons_append, hasDunder]
      rw [hasDunder] at h1
      have hab : (a == '_' && b == '_') = false := by
        rcases Bool.or_eq_false_iff.mp h1 with ⟨h, _⟩
        exact h
      have ht : hasDunder (b :: t') = false := by
        rcases Bool.or_eq_false_iff.mp h1 with ⟨_, h⟩
        exact h
      have hj' : ∀ c d, (b :: t').getLast? = some c → l2.head? = some d →
          c = '_' → d = '_' → False := by
        intro c d hc hd
        exact hj c d (by rw [List.getLast?_cons_cons]; exact hc) hd
      have := ih l2 ht h2 hj'
      rw [List.cons_append] at this
      simp [hab, this]

/-- The generated names avoid the `__` digraph whenever the base name
does. -/
theorem hasDunder_inlineVarName (n : Nat) (base : List Char)
    (hbase : hasDunder base = false) :
    hasDunder (inlineVarName n base) = false := by
  unfold inlineVarName
  have hshape : '_' :: (decChars n ++ (splitterFor base ++ base)) =
      ('_' :: decChars n) ++ (splitterFor base ++ base) := by
    simp
  rw [hshape]
  have hA : hasDunder ('_' :: decChars n) = false := by
    have : ('_' :: decChars n) = ['_'] ++ decChars n := by simp
    rw [this]
    refine hasDunder_append ['_'] (decChars n) rfl
      (hasDunder_of_no_underscore _ (decChars_ne_underscore n)) ?_
    intro c d hc hd _ hd'
    have : d ∈ decChars n := List.mem_of_mem_head? (by rw [hd]; simp)
    exact decChars_ne_underscore n d this hd'
  have hB : hasDunder (splitterFor base ++ base) = false := by
    unfold splitterFor
    by_cases hh : base.head? = some '_'
    · simp only [hh, if_true, List.nil_append]
      exact hbase
    · simp only [hh, if_false, List.singleton_append]
      have : ('_' :: base) = ['_'] ++ base := by simp
      rw [this]
      refine hasDunder_append ['_'] base rfl hbase ?_
      intro c d hc hd _ hd'
      subst hd'
      exact hh hd
  refine hasDunder_append _ _ hA hB ?_
  intro c d hc hd hc' _
  have hlast : ('_' :: decChars n).getLast? = (decChars n).getLast? := by
    match h : decChars n, decChars_ne_nil n with
    | x :: xs, _ => rw [List.getLast?_cons_cons]
  rw [hlast] at hc
  have : c ∈ decChars n := List.mem_of_getLast?_eq_some hc
  exact decChars_ne_underscore n c this hc'

/-- Counterexample to C7 as stated: a base name that itself contains the
`__` digraph (here `a__b`) produces a name that still contains it. -/
theorem c7_counterexample :
    (uniqueNameForInlineVar 0 [] ['a', '_', '_', 'b']).1 =
      ['_', '0', '_', 'a', '_', '_', 'b'] ∧
    hasDunder (uniqueNameForInlineVar 0 [] ['a', '_', '_', 'b']).1 = true :=
  ⟨rfl, rfl⟩

/-- Claim C7 (amended): for a base name free of the `__` digraph,
`uniqueNameForInlineVar` produces a name of the form `_<N><sep><base>`
(with `N` at least the incoming counter and `<sep>` as specified), absent
from the receiving symbol table at generation time, and free of the `__`
digraph. -/
theorem c7_unique_name_for_inline_var (counter : Nat)
    (symbolTable : List (List Char)) (baseName : List Char)
    (hbase : hasDunder baseName = false) :
    (∃ n, counter ≤ n ∧
       uniqueNameForInlineVar counter symbolTable baseName =
         (inlineVarName n baseName, n + 1)) ∧
    (uniqueNameForInlineVar counter symbolTable baseName).1 ∉ symbolTable ∧
    hasDunder (uniqueNameForInlineVar counter symbolTable baseName).1 = false := by
  obtain ⟨k, hk, hfree⟩ := exists_fresh_name counter symbolTable baseName
  obtain ⟨n, hn1, hn2, hn3⟩ := uniqueNameLoop_spec baseName symbolTable
    (symbolTable.length + 1) counter ⟨k, by omega, hfree⟩
  unfold uniqueNameForInlineVar
  refine ⟨⟨n, hn1, hn2⟩, ?_, ?_⟩
  · rw [hn2]
    exact hn3
  · rw [hn2]
    exact hasDunder_inlineVarName n baseName hbase

/-- Witness for C7 at a concrete base name, counter and table. -/
theorem c7_witness :
    hasDunder ['v'] = false ∧
    ((∃ n, 0 ≤ n ∧
        uniqueNameForInlineVar 0 [['x']] ['v'] = (inlineVarName n ['v'], n + 1)) ∧
     (uniqueNameForInlineVar 0 [['x']] ['v']).1 ∉ [['x']] ∧
     hasDunder (uniqueNameForInlineVar 0 [['x']] ['v']).1 = false) :=
  ⟨rfl, c7_unique_name_for_inline_var 0 [['x']] ['v'] rfl⟩

/-- A path in the analyzer's argument loop points at some argument, with
the tag recording the argument's position. -/
theorem visitExprListA_mem (tag : Nat → Dir) :
    ∀ (es : List Expr) (i : Nat) (p : List Dir), p ∈ visitExprListA tag i es →
      ∃ j e' p', es[j]? = some e' ∧ p = tag (i + j) :: p' ∧
        p' ∈ visitExpressionA e' := by
  intro es
  induction es with
  | nil =>
    intro i p hp
    simp [visitExprListA] at hp
  | cons e es ih =>
    intro i p hp
    rw [visitExprListA] at hp
    rcases List.mem_append.mp hp with h | h
    · obtain ⟨p', hp', rfl⟩ := List.mem_map.mp h
      exact ⟨0, e, p', by simp, by simp, hp'⟩
    · obtain ⟨j, e', p', hj, hpe, hin⟩ := ih (i + 1) p h
      refine ⟨j + 1, e', p', by simpa using hj, ?_, hin⟩
      rw [hpe]
      have : i + 1 + j = i + (j + 1) := by omega
      rw [this]

/-- `bannedEAt` looks up the indexed element. -/
theorem bannedEAt_eq :
    ∀ (es : List Expr) (j : Nat) (e' : Expr) (p : List Dir),
      es[j]? = some e' → bannedEAt es j p = bannedE e' p := by
  intro es
  induction es with
  | nil =>
    intro j e' p h
    simp at h
  | cons e es ih =>
    intro j e' p h
    match j with
    | 0 =>
      simp at h
      subst h
      rw [bannedEAt]
    | j + 1 =>
      simp at h
      rw [bannedEAt]
      exact ih j e' p h

set_option maxHeartbeats 1000000 in
/-- No candidate path collected by the analyzer's expression visitor
passes through a banned position (fuel-indexed induction). -/
theorem visitExpressionA_sound_aux :
    ∀ (fuel : Nat) (e : Expr), sizeOf e ≤ fuel →
      ∀ p, p ∈ visitExpressionA e → bannedE e p = false := by
  intro fuel
  induction fuel with
  | zero =>
    intro e he
    exfalso
    cases e <;> simp at he
  | succ fuel ih =>
    intro e he p hp
    cases e with
    | boolLit v => simp [visitExpressionA] at hp
    | intLit v => simp [visitExpressionA] at hp
    | floatLit v => simp [visitExpressionA] at hp
    | nullLit => simp [visitExpressionA] at hp
    | varRef v r => simp [visitExpressionA] at hp
    | fieldAccess b i => simp [visitExpressionA] at hp
    | externalValue v => simp [visitExpressionA] at hp
    | functionRef f => simp [visitExpressionA] at hp
    | typeRef t => simp [visitExpressionA] at hp
    | setting n => simp [visitExpressionA] at hp
    | binary l op r =>
      simp only [visitExpressionA] at hp
      rcases List.mem_append.mp hp with h | h
      · obtain ⟨p', hp', rfl⟩ := List.mem_map.mp h
        have hl : sizeOf l ≤ fuel := by simp at he; omega
        rw [bannedE]
        exact ih l hl p' hp'
      · by_cases hop : isShortCircuit op = true
        · rw [hop] at h
          simp at h
        · rw [Bool.not_eq_true] at hop
          rw [hop] at h
          simp only [Bool.false_eq_true, if_false] at h
          obtain ⟨p', hp', rfl⟩ := List.mem_map.mp h
          have hr : sizeOf r ≤ fuel := by simp at he; omega
          rw [bannedE]
          show (isShortCircuit op || bannedE r p') = false
          rw [hop]
          simp only [Bool.false_or]
          exact ih r hr p' hp'
    | ternary t a b =>
      simp only [visitExpressionA] at hp
      obtain ⟨p', hp', rfl⟩ := List.mem_map.mp hp
      have ht : sizeOf t ≤ fuel := by simp at he; omega
      rw [bannedE]
      exact ih t ht p' hp'
    | constructorE args =>
      simp only [visitExpressionA] at hp
      obtain ⟨j, e', p', hj, rfl, hin⟩ := visitExprListA_mem Dir.ctorArg args 0 p hp
      have hmem : e' ∈ args := List.getElem?_mem hj
      have hsz : sizeOf e' ≤ fuel := by
        have := List.sizeOf_lt_of_mem hmem
        simp at he
        omega
      simp only [Nat.zero_add]
      rw [bannedE]
      show bannedEAt args j p' = false
      rw [bannedEAt_eq args j e' p' hj]
      exact ih e' hsz p' hin
    | externalFunctionCall args =>
      simp only [visitExpressionA] at hp
      obtain ⟨j, e', p', hj, rfl, hin⟩ := visitExprListA_mem Dir.extArg args 0 p hp
      have hmem : e' ∈ args := List.getElem?_mem hj
      have hsz : sizeOf e' ≤ fuel := by
        have := List.sizeOf_lt_of_mem hmem
        simp at he
        omega
      simp only [Nat.zero_add]
      rw [bannedE]
      show bannedEAt args j p' = false
      rw [bannedEAt_eq args j e' p' hj]
      exact ih e' hsz p' hin
    | funcCall f args =>
      simp only [visitExpressionA] at hp
      rcases List.mem_append.mp hp with h | h
      · obtain ⟨j, e', p', hj, rfl, hin⟩ := visitExprListA_mem Dir.callArg args 0 p h
        have hmem : e' ∈ args := List.getElem?_mem hj
        have hsz : sizeOf e' ≤ fuel := by
          have := List.sizeOf_lt_of_mem hmem
          simp at he
          omega
        simp only [Nat.zero_add]
        rw [bannedE]
        show bannedEAt args j p' = false
        rw [bannedEAt_eq args j e' p' hj]
        exact ih e' hsz p' hin
      · simp at h
        subst h
        rw [bannedE]
    | indexE b i =>
      simp only [visitExpressionA] at hp
      rcases List.mem_append.mp hp with h | h
      · obtain ⟨p', hp', rfl⟩ := List.mem_map.mp h
        have hb : sizeOf b ≤ fuel := by simp at he; omega
        rw [bannedE]
        exact ih b hb p' hp'
      · obtain ⟨p', hp', rfl⟩ := List.mem_map.mp h
        have hi : sizeOf i ≤ fuel := by simp at he; omega
        rw [bannedE]
        exact ih i hi p' hp'
    | postE e' op =>
      simp only [visitExpressionA] at hp
      obtain ⟨p', hp', rfl⟩ := List.mem_map.mp hp
      have hsz : sizeOf e' ≤ fuel := by simp at he; omega
      rw [bannedE]
      exact ih e' hsz p' hp'
    | preE op e' =>
      simp only [visitExpressionA] at hp
      obtain ⟨p', hp', rfl⟩ := List.mem_map.mp hp
      have hsz : sizeOf e' ≤ fuel := by simp at he; omega
      rw [bannedE]
      exact ih e' hsz p' hp'
    | swizzle b comps =>
      simp only [visitExpressionA] at hp
      obtain ⟨p', hp', rfl⟩ := List.mem_map.mp hp
      have hb : sizeOf b ≤ fuel := by simp at he; omega
      rw [bannedE]
      exact ih b hb p' hp'

/-- No candidate path collected by the analyzer's expression visitor
passes through a banned position. -/
theorem visitExpressionA_sound (e : Expr) :
    ∀ p, p ∈ visitExpressionA e → bannedE e p = false :=
  visitExpressionA_sound_aux (sizeOf e) e le_rfl

/-- A path in the analyzer's block loop points at some statement. -/
theorem visitStmtListA_mem :
    ∀ (ss : List Stmt) (i : Nat) (p : List Dir), p ∈ visitStmtListA i ss →
      ∃ j s' p', ss[j]? = some s' ∧ p = Dir.blockAt (i + j) :: p' ∧
        p' ∈ visitStatementA s' := by
  intro ss
  induction ss with
  | nil =>
    intro i p hp
    simp [visitStmtListA] at hp
  | cons s ss ih =>
    intro i p hp
    rw [visitStmtListA] at hp
    rcases List.mem_append.mp hp with h | h
    · obtain ⟨p', hp', rfl⟩ := List.mem_map.mp h
      exact ⟨0, s, p', by simp, by simp, hp'⟩
    · obtain ⟨j, s', p', hj, hpe, hin⟩ := ih (i + 1) p h
      refine ⟨j + 1, s', p', by simpa using hj, ?_, hin⟩
      rw [hpe]
      have : i + 1 + j = i + (j + 1) := by omega
      rw [this]

/-- A path in the analyzer's var-declarations loop points at some
declaration. -/
theorem visitVarDeclListA_mem :
    ∀ (ss : List Stmt) (i : Nat) (p : List Dir), p ∈ visitVarDeclListA i ss →
      ∃ j s' p', ss[j]? = some s' ∧ p = Dir.vdsAt (i + j) :: p' ∧
        p' ∈ visitStatementA s' := by
  intro ss
  induction ss with
  | nil =>
    intro i p hp
    simp [visitVarDeclListA] at hp
  | cons s ss ih =>
    intro i p hp
    rw [visitVarDeclListA] at hp
    rcases List.mem_append.mp hp with h | h
    · obtain ⟨p', hp', rfl⟩ := List.mem_map.mp h
      exact ⟨0, s, p', by simp, by simp, hp'⟩
    · obtain ⟨j, s', p', hj, hpe, hin⟩ := ih (i + 1) p h
      refine ⟨j + 1, s', p', by simpa using hj, ?_, hin⟩
      rw [hpe]
      have : i + 1 + j = i + (j + 1) := by omega
      rw [this]

/-- A path in one switch case's statement loop points at some
statement of that case. -/
theorem visitCaseStmtsA_mem :
    ∀ (ss : List Stmt) (a j : Nat) (p : List Dir), p ∈ visitCaseStmtsA a j ss →
      ∃ k s' p', ss[k]? = some s' ∧ p = Dir.swCase a (j + k) :: p' ∧
        p' ∈ visitStatementA s' := by
  intro ss
  induction ss with
  | nil =>
    intro a j p hp
    simp [visitCaseStmtsA] at hp
  | cons s ss ih =>
    intro a j p hp
    rw [visitCaseStmtsA] at hp
    rcases List.mem_append.mp hp with h | h
    · obtain ⟨p', hp', rfl⟩ := List.mem_map.mp h
      exact ⟨0, s, p', by simp, by simp, hp'⟩
    · obtain ⟨k, s', p', hk, hpe, hin⟩ := ih a (j + 1) p h
      refine ⟨k + 1, s', p', by simpa using hk, ?_, hin⟩
      rw [hpe]
      have : j + 1 + k = j + (k + 1) := by omega
      rw [this]

/-- A path in the analyzer's switch-case loop points at some statement of
some case. -/
theorem visitCaseListA_mem :
    ∀ (cs : List (Option Expr × List Stmt)) (i : Nat) (p : List Dir),
      p ∈ visitCaseListA i cs →
      ∃ a cv css k s' p', cs[a]? = some (cv, css) ∧ css[k]? = some s' ∧
        p = Dir.swCase (i + a) k :: p' ∧ p' ∈ visitStatementA s' := by
  intro cs
  induction cs with
  | nil =>
    intro i p hp
    simp [visitCaseListA] at hp
  | cons c cs ih =>
    intro i p hp
    obtain ⟨cv, css⟩ := c
    rw [visitCaseListA] at hp
    rcases List.mem_append.mp hp with h | h
    · obtain ⟨k, s', p', hk, hpe, hin⟩ := visitCaseStmtsA_mem css i 0 p h
      refine ⟨0, cv, css, k, s', p', by simp, hk, ?_, hin⟩
      simp only [Nat.zero_add] at hpe
      simpa using hpe
    · obtain ⟨a, cv', css', k, s', p', ha, hk, hpe, hin⟩ := ih (i + 1) p h
      refine ⟨a + 1, cv', css', k, s', p', by simpa using ha, hk, ?_, hin⟩
      rw [hpe]
      have : i + 1 + a = i + (a + 1) := by omega
      rw [this]

/-- `bannedSAt` looks up the indexed element. -/
theorem bannedSAt_eq :
    ∀ (ss : List Stmt) (j : Nat) (s' : Stmt) (p : List Dir),
      ss[j]? = some s' → bannedSAt ss j p = bannedS s' p := by
  intro ss
  induction ss with
  | nil =>
    intro j s' p h
    simp at h
  | cons s ss ih =>
    intro j s' p h
    match j with
    | 0 =>
      simp at h
      subst h
      rw [bannedSAt]
    | j + 1 =>
      simp at h
      rw [bannedSAt]
      exact ih j s' p h

/-- `bannedCaseAt` looks up the indexed case. -/
theorem bannedCaseAt_eq :
    ∀ (cs : List (Option Expr × List Stmt)) (a : Nat) (cv : Option Expr)
      (css : List Stmt) (k : Nat) (p : List Dir),
      cs[a]? = some (cv, css) → bannedCaseAt cs a k p = bannedSAt css k p := by
  intro cs
  induction cs with
  | nil =>
    intro a cv css k p h
    simp at h
  | cons c cs ih =>
    intro a cv css k p h
    match a with
    | 0 =>
      obtain ⟨cv2, css2⟩ := c
      simp at h
      obtain ⟨rfl, rfl⟩ := h
      rw [bannedCaseAt]
    | a + 1 =>
      simp at h
      rw [bannedCaseAt]
      exact ih a cv css k p h

set_option maxHeartbeats 1000000 in
/-- No candidate path collected by the analyzer's statement visitor passes
through a banned position (fuel-indexed induction). -/
theorem visitStatementA_sound_aux :
    ∀ (fuel : Nat) (s : Stmt), sizeOf s ≤ fuel →
      ∀ p, p ∈ visitStatementA s → bannedS s p = false := by
  intro fuel
  induction fuel with
  | zero =>
    intro s hs
    exfalso
    cases s <;> simp at hs
  | succ fuel ih =>
    intro s hs p hp
    cases s with
    | breakS => simp [visitStatementA] at hp
    | continueS => simp [visitStatementA] at hp
    | discardS => simp [visitStatementA] at hp
    | inlineMarker f => simp [visitStatementA] at hp
    | nop => simp [visitStatementA] at hp
    | block ss isScope =>
      simp only [visitStatementA] at hp
      obtain ⟨j, s', p', hj, rfl, hin⟩ := visitStmtListA_mem ss 0 p hp
      have hmem : s' ∈ ss := List.getElem?_mem hj
      have hsz : sizeOf s' ≤ fuel := by
        have := List.sizeOf_lt_of_mem hmem
        simp at hs
        omega
      simp only [Nat.zero_add]
      rw [bannedS]
      show bannedSAt ss j p' = false
      rw [bannedSAt_eq ss j s' p' hj]
      exact ih s' hsz p' hin
    | doS s' t =>
      simp only [visitStatementA] at hp
      obtain ⟨p', hp', rfl⟩ := List.mem_map.mp hp
      have hsz : sizeOf s' ≤ fuel := by simp at hs; omega
      rw [bannedS]
      exact ih s' hsz p' hp'
    | exprS e =>
      simp only [visitStatementA] at hp
      obtain ⟨p', hp', rfl⟩ := List.mem_map.mp hp
      rw [bannedS]
      exact visitExpressionA_sound e p' hp'
    | forS ini t n s' =>
      simp only [visitStatementA] at hp
      rcases List.mem_append.mp hp with h | h
      · match ini, h with
        | some i0, h =>
          simp only [visitStmtOptA] at h
          obtain ⟨p', hp', rfl⟩ := List.mem_map.mp h
          have hsz : sizeOf i0 ≤ fuel := by simp at hs; omega
          rw [bannedS]
          exact ih i0 hsz p' hp'
        | Option.none, h => simp [visitStmtOptA] at h
      · obtain ⟨p', hp', rfl⟩ := List.mem_map.mp h
        have hsz : sizeOf s' ≤ fuel := by simp at hs; omega
        rw [bannedS]
        show bannedS s' p' = false
        exact ih s' hsz p' hp'
    | ifS isStatic t a b =>
      simp only [visitStatementA] at hp
      rcases List.mem_append.mp hp with h | h
      · rcases List.mem_append.mp h with h2 | h2
        · obtain ⟨p', hp', rfl⟩ := List.mem_map.mp h2
          rw [bannedS]
          exact visitExpressionA_sound t p' hp'
        · obtain ⟨p', hp', rfl⟩ := List.mem_map.mp h2
          have hsz : sizeOf a ≤ fuel := by simp at hs; omega
          rw [bannedS]
          exact ih a hsz p' hp'
      · match b, h with
        | some b0, h =>
          simp only [visitStmtOptA] at h
          obtain ⟨p', hp', rfl⟩ := List.mem_map.mp h
          have hsz : sizeOf b0 ≤ fuel := by simp at hs; omega
          rw [bannedS]
          exact ih b0 hsz p' hp'
        | Option.none, h => simp [visitStmtOptA] at h
    | returnS e =>
      simp only [visitStatementA] at hp
      match e, hp with
      | some e0, hp =>
        simp only [visitExprOptA] at hp
        obtain ⟨p', hp', rfl⟩ := List.mem_map.mp hp
        rw [bannedS]
        exact visitExpressionA_sound e0 p' hp'
      | Option.none, hp => simp [visitExprOptA] at hp
    | switchS isStatic v cs =>
      simp only [visitStatementA] at hp
      rcases List.mem_append.mp hp with h | h
      · obtain ⟨p', hp', rfl⟩ := List.mem_map.mp h
        rw [bannedS]
        exact visitExpressionA_sound v p' hp'
      · obtain ⟨a, cv, css, k, s', p', ha, hk, rfl, hin⟩ := visitCaseListA_mem cs 0 p h
        have hmemc : (cv, css) ∈ cs := List.getElem?_mem ha
        have hmems : s' ∈ css := List.getElem?_mem hk
        have hsz : sizeOf s' ≤ fuel := by
          have h1 := List.sizeOf_lt_of_mem hmemc
          have h2 := List.sizeOf_lt_of_mem hmems
          simp at hs h1
          omega
        simp only [Nat.zero_add]
        rw [bannedS]
        show bannedCaseAt cs a k p' = false
        rw [bannedCaseAt_eq cs a cv css k p' ha, bannedSAt_eq css k s' p' hk]
        exact ih s' hsz p' hin
    | varDeclS var sizes v =>
      simp only [visitStatementA] at hp
      match v, hp with
      | some v0, hp =>
        simp only [visitExprOptA] at hp
        obtain ⟨p', hp', rfl⟩ := List.mem_map.mp hp
        rw [bannedS]
        exact visitExpressionA_sound v0 p' hp'
      | Option.none, hp => simp [visitExprOptA] at hp
    | varDeclsS baseType vs =>
      simp only [visitStatementA] at hp
      obtain ⟨j, s', p', hj, rfl, hin⟩ := visitVarDeclListA_mem vs 0 p hp
      have hmem : s' ∈ vs := List.getElem?_mem hj
      have hsz : sizeOf s' ≤ fuel := by
        have := List.sizeOf_lt_of_mem hmem
        simp at hs
        omega
      simp only [Nat.zero_add]
      rw [bannedS]
      show bannedSAt vs j p' = false
      rw [bannedSAt_eq vs j s' p' hj]
      exact ih s' hsz p' hin
    | whileS t s' =>
      simp only [visitStatementA] at hp
      obtain ⟨p', hp', rfl⟩ := List.mem_map.mp hp
      have hsz : sizeOf s' ≤ fuel := by simp at hs; omega
      rw [bannedS]
      exact ih s' hsz p' hp'

/-- No candidate path collected by the analyzer's statement visitor
passes through a banned position. -/
theorem visitStatementA_sound (s : Stmt) :
    ∀ p, p ∈ visitStatementA s → bannedS s p = false :=
  visitStatementA_sound_aux (sizeOf s) s le_rfl

/-- A candidate path of the whole-program analyzer points into the body
of some function definition of the program. -/
theorem analyzerCandidates_mem :
    ∀ (prog : List ProgramElement) (i : Nat) (p : List Dir),
      p ∈ analyzerCandidates i prog →
      ∃ a fd q, prog[a]? = some (.functionDef fd) ∧
        p = Dir.peAt (i + a) :: Dir.peBody :: q ∧ q ∈ visitStatementA fd.body := by
  intro prog
  induction prog with
  | nil =>
    intro i p hp
    simp [analyzerCandidates] at hp
  | cons pe rest ih =>
    intro i p hp
    match pe with
    | .functionDef fd =>
      rw [analyzerCandidates] at hp
      rcases List.mem_append.mp hp with h | h
      · obtain ⟨q, hq, rfl⟩ := List.mem_map.mp h
        exact ⟨0, fd, q, by simp, by simp, hq⟩
      · obtain ⟨a, fd', q, ha, hpe, hq⟩ := ih (i + 1) p h
        refine ⟨a + 1, fd', q, by simpa using ha, ?_, hq⟩
        rw [hpe]
        have : i + 1 + a = i + (a + 1) := by omega
        rw [this]
    | .otherElement =>
      rw [analyzerCandidates] at hp
      obtain ⟨a, fd', q, ha, hpe, hq⟩ := ih (i + 1) p hp
      refine ⟨a + 1, fd', q, by simpa using ha, ?_, hq⟩
      rw [hpe]
      have : i + 1 + a = i + (a + 1) := by omega
      rw [this]

/-- `bannedProg` looks up the indexed program element. -/
theorem bannedProg_eq :
    ∀ (prog : List ProgramElement) (a : Nat) (fd : FunctionDefinition)
      (q : List Dir), prog[a]? = some (.functionDef fd) →
      bannedProg prog (Dir.peAt a :: Dir.peBody :: q) = bannedS fd.body q := by
  intro prog
  induction prog with
  | nil =>
    intro a fd q h
    simp at h
  | cons pe rest ih =>
    intro a fd q h
    match a with
    | 0 =>
      simp at h
      subst h
      rw [bannedProg]
    | a + 1 =>
      simp at h
      rw [bannedProg]
      exact ih a fd q h

/-- Claim C6: no candidate collected by the candidate analyzer over a
program lies in the right operand of a short-circuiting `&&` / `||` or in
an arm of a ternary (and the ternary's test is still visited: its
candidates are exactly the test's candidates). -/
theorem c6_no_banned_candidates (prog : List ProgramElement) (p : List Dir)
    (hp : p ∈ analyzerCandidates 0 prog) :
    bannedProg prog p = false ∧
    (∀ t a b, visitExpressionA (.ternary t a b) =
       (visitExpressionA t).map (fun q => Dir.ternT :: q)) := by
  constructor
  · obtain ⟨a, fd, q, ha, rfl, hq⟩ := analyzerCandidates_mem prog 0 p hp
    simp only [Nat.zero_add]
    rw [bannedProg_eq prog a fd q ha]
    exact visitStatementA_sound fd.body q hq
  · intro t a b
    rw [visitExpressionA]

/-- Witness for C6 at a concrete one-function program whose body is a
single call statement. -/
theorem c6_witness :
    [Dir.peAt 0, Dir.peBody, Dir.exprE] ∈
      analyzerCandidates 0
        [ProgramElement.functionDef
          ⟨[], ⟨false, false⟩, SkType.voidT, Stmt.exprS (Expr.funcCall 5 [])⟩] ∧
    bannedProg
        [ProgramElement.functionDef
          ⟨[], ⟨false, false⟩, SkType.voidT, Stmt.exprS (Expr.funcCall 5 [])⟩]
        [Dir.peAt 0, Dir.peBody, Dir.exprE] = false := by
  have hmem : [Dir.peAt 0, Dir.peBody, Dir.exprE] ∈
      analyzerCandidates 0
        [ProgramElement.functionDef
          ⟨[], ⟨false, false⟩, SkType.voidT, Stmt.exprS (Expr.funcCall 5 [])⟩] := by
    rw [analyzerCandidates, analyzerCandidates, visitStatementA, visitExpressionA,
      visitExprListA]
    simp
  exact ⟨hmem,
    (c6_no_banned_candidates _ _ hmem).1⟩

/-- Witness for C4 at a concrete clone state, result variable and
returned expression. -/
theorem c4_witness :
    inlineStatement 9 true ⟨[], 0, [], 50⟩ (.returnS (some (Expr.intLit 1))) =
      (.block [.exprS (.binary (.varRef 9 .kWrite) .TK_EQ
          (inlineExpression ([] : VariableRewriteMap) (Expr.intLit 1))), .breakS]
        true, ⟨[], 0, [], 50⟩) ∧
    inlineStatement 9 false ⟨[], 0, [], 50⟩ (.returnS Option.none) =
      (.nop, ⟨[], 0, [], 50⟩) :=
  ⟨(c4_return_lowering ⟨[], 0, [], 50⟩ 9 (Expr.intLit 1)).1,
   (c4_return_lowering ⟨[], 0, [], 50⟩ 9 (Expr.intLit 1)).2.2.2⟩

/-- Witness for C8 at a concrete function definition with one tail
return. -/
theorem c8_witness :
    has_early_return ⟨[], ⟨false, false⟩, SkType.voidT,
        Stmt.block [Stmt.returnS Option.none] true⟩ = true ↔
      count_all_returns ⟨[], ⟨false, false⟩, SkType.voidT,
          Stmt.block [Stmt.returnS Option.none] true⟩ >
        count_returns_at_end_of_control_flow ⟨[], ⟨false, false⟩, SkType.voidT,
          Stmt.block [Stmt.returnS Option.none] true⟩ :=
  c8_has_early_return_iff
    ⟨[], ⟨false, false⟩, SkType.voidT, Stmt.block [Stmt.returnS Option.none] true⟩

/-- Witness for C9 at concrete settings, node counts and inline flags. -/
theorem c9_witness :
    isSafeToInline ⟨some ⟨true⟩, 50⟩
        ⟨3, some ⟨['f'], ⟨false, true⟩, SkType.intT, Stmt.nop⟩, 2⟩ 1000000 INT_MAX =
      isSafeToInline ⟨some ⟨true⟩, 50⟩
        ⟨3, some ⟨['f'], ⟨false, false⟩, SkType.intT, Stmt.nop⟩, 2⟩ 7 INT_MAX :=
  c9_int_max_skips_size_check ⟨some ⟨true⟩, 50⟩ 3 2 ['f']
    ⟨false, true⟩ ⟨false, false⟩ SkType.intT Stmt.nop 1000000 7

end SkSL
